import Mathlib

/-! PhotoEditor: window wiring of `photoeditorwindow.cpp`.

A shallow embedding of the event handlers of `PhotoEditorWindow`
(`createWidgets`, `createConnections`, `openFile`, `loadPhoto`) together with
the small part of the toolkit they rely on (`QString::number`,
`QString::toInt`, `QRegExpValidator`, `QSignalBlocker`, `QButtonGroup`,
`QComboBox`).
-/

namespace PhotoEditor

/-! ## QString helpers -/

/-- `QString::number(int)`: canonical decimal form, with a leading minus sign
    for negative values. -/
def number (n : Int) : String :=
  match n with
  | Int.ofNat m => String.mk (Nat.toDigits 10 m)
  | Int.negSucc m => String.mk ('-' :: Nat.toDigits 10 (m + 1))

/-- ASCII white space, which the number parser skips at both ends of the
    text (other Unicode space characters are not modelled). -/
def isSpace (c : Char) : Bool :=
  c = ' ' || c = '\t' || c = '\n' || c = '\r' || c = Char.ofNat 11 || c = Char.ofNat 12

/-- Text with leading and trailing white space removed (`QString::trimmed`). -/
def trimmed (cs : List Char) : List Char :=
  ((cs.dropWhile isSpace).reverse.dropWhile isSpace).reverse

/-- Value of an ASCII decimal digit, `none` for any other character. -/
def digitValue (c : Char) : Option Nat :=
  if '0' ≤ c ∧ c ≤ '9' then some (c.toNat - 48) else none

/-- Reads a run of decimal digits, most significant first, onto the
    accumulator `acc`; fails on any non-digit. -/
def parseDigits : List Char → Nat → Option Nat
  | [], acc => some acc
  | c :: cs, acc =>
    match digitValue c with
    | some d => parseDigits cs (10 * acc + d)
    | none => none

/-- Signed decimal integer: optional sign followed by at least one digit. -/
def parseInteger (cs : List Char) : Option Int :=
  match cs with
  | [] => none
  | '-' :: ds => if ds = [] then none else (parseDigits ds 0).map (fun v => - (v : Int))
  | '+' :: ds => if ds = [] then none else (parseDigits ds 0).map (fun v => (v : Int))
  | ds => (parseDigits ds 0).map (fun v => (v : Int))

/-- `QString::toInt()` in base 10: the parsed value, or 0 when the text is not
    a decimal integer or does not fit a 32-bit `int`. -/
def toInt (s : String) : Int :=
  match parseInteger (trimmed s.data) with
  | some v => if -2147483648 ≤ v ∧ v ≤ 2147483647 then v else 0
  | none => 0

/-- Character is an ASCII decimal digit. -/
def IsDigit (c : Char) : Prop := '0' ≤ c ∧ c ≤ '9'

instance (c : Char) : Decidable (IsDigit c) := by
  unfold IsDigit
  exact inferInstance

/-- The text `s` is the canonical decimal representation of the natural
    number `n`: at least one character, ASCII digits only (so no sign and no
    white space), no leading zero, and the digits read in base ten give `n`. -/
def IsCanonicalDecimal (s : String) (n : Nat) : Prop :=
  s.data ≠ [] ∧ (∀ c ∈ s.data, IsDigit c) ∧ s.data.head? ≠ some '0' ∧
    parseDigits s.data 0 = some n

/-! ## Regular expressions of the validator -/

/-- Abstract syntax of the fragment of `QRegExp` patterns used by the window:
    literals, character ranges, sequence, alternation and `{0,1}`. -/
inductive Rx where
  | empty : Rx
  | eps : Rx
  | range : Char → Char → Rx
  | seq : Rx → Rx → Rx
  | alt : Rx → Rx → Rx
  | opt : Rx → Rx
  deriving Repr, DecidableEq

namespace Rx

/-- Single literal character. -/
def chr (c : Char) : Rx := range c c

/-- The regular expression accepts the empty string. -/
def nullable : Rx → Bool
  | empty => false
  | eps => true
  | range _ _ => false
  | seq r s => nullable r && nullable s
  | alt r s => nullable r || nullable s
  | opt _ => true

/-- The regular expression accepts at least one string. -/
def nonEmpty : Rx → Bool
  | empty => false
  | eps => true
  | range lo hi => decide (lo ≤ hi)
  | seq r s => nonEmpty r && nonEmpty s
  | alt r s => nonEmpty r || nonEmpty s
  | opt _ => true

/-- Residual expression after reading the character `c`. -/
def deriv : Rx → Char → Rx
  | empty, _ => empty
  | eps, _ => empty
  | range lo hi, c => if lo ≤ c ∧ c ≤ hi then eps else empty
  | seq r s, c =>
    if nullable r then alt (seq (deriv r c) s) (deriv s c) else seq (deriv r c) s
  | alt r s, c => alt (deriv r c) (deriv s c)
  | opt r, c => deriv r c

/-- Residual expression after reading a whole text. -/
def derivs (r : Rx) (cs : List Char) : Rx := cs.foldl deriv r

/-- `QRegExp::exactMatch`: the whole text is matched by the pattern. -/
def exactMatch (r : Rx) (s : String) : Bool := nullable (derivs r s.data)

/-- After a failed `exactMatch`, `matchedLength()` equals the input length
    exactly when the input is a proper beginning of some matching text. -/
def partialMatch (r : Rx) (s : String) : Bool := nonEmpty (derivs r s.data)

end Rx

/-- The pattern `^([1-9][0-9]{0,1}|100)$` given to `QRegExp` in
    `createWidgets`; the anchors are implied by `exactMatch`. -/
def opacityPattern : Rx :=
  Rx.alt (Rx.seq (Rx.range '1' '9') (Rx.opt (Rx.range '0' '9')))
    (Rx.seq (Rx.chr '1') (Rx.seq (Rx.chr '0') (Rx.chr '0')))

/-- Result of `QValidator::validate`. -/
inductive ValidatorState where
  | Invalid
  | Intermediate
  | Acceptable
  deriving Repr, DecidableEq

/-- `QRegExpValidator::validate`: `Acceptable` on an exact match,
    `Intermediate` when the match failed only because the input ended, and
    `Invalid` otherwise. -/
def validate (r : Rx) (input : String) : ValidatorState :=
  if r.exactMatch input then ValidatorState.Acceptable
  else if r.partialMatch input then ValidatorState.Intermediate
  else ValidatorState.Invalid

/-- Texts `"1"`, ..., `"100"`: the decimal forms of the integers 1 to 100. -/
def allowedTexts : List String :=
  (List.range 100).map (fun i => number (Int.ofNat (i + 1)))

namespace Rx

/-- Every character range of the expression lies inside the set `p`. -/
def charsIn (p : Char → Prop) : Rx → Prop
  | empty => True
  | eps => True
  | range lo hi => ∀ c, lo ≤ c → c ≤ hi → p c
  | seq r s => charsIn p r ∧ charsIn p s
  | alt r s => charsIn p r ∧ charsIn p s
  | opt r => charsIn p r

end Rx

/-! ## Opacity slider and line edit (`createWidgets`, `createConnections`) -/

/-- Modelled from the spec: `Constants::SLIDER_MAX_VALUE` is used by
    `createWidgets` but not declared in the available `constants.h`; the
    specification takes it as 100. -/
def SLIDER_MAX_VALUE : Int := 100

/-- `qBound(lo, v, hi)`, that is `qMax(lo, qMin(hi, v))`. -/
def qBound (lo v hi : Int) : Int := max lo (min hi v)

/-- What the two lambdas connected to the opacity widgets did, in order. -/
inductive Call where
  | ranValueChanged (value : Int)
  | calledSetText (text : String)
  | ranTextChanged (value : String)
  | calledSetValue (value : Int)
  deriving Repr, DecidableEq

/-- The opacity slider and line edit: the slider value, the text shown, the
    `signalsBlocked` flag of each widget, and the record of handler activity. -/
structure Opacity where
  sliderValue : Int
  sliderBlocked : Bool
  text : String
  lineEditBlocked : Bool
  log : List Call
  deriving Repr, DecidableEq

/-- Operations on the opacity widgets: the two toolkit setters and the two
    lambdas of `createConnections`. -/
inductive Op where
  | sliderSetValue (value : Int)
  | lineEditSetText (text : String)
  | onValueChanged (value : Int)
  | onTextChanged (value : String)
  deriving Repr, DecidableEq

/-- Runs one operation to completion, including every handler it triggers.
    `fuel` bounds the nesting depth of calls; `none` means it was exhausted.

    * `QAbstractSlider::setValue` bounds the value to the range set by
      `setRange(0, SLIDER_MAX_VALUE)`, returns when nothing changes, and
      otherwise stores it and emits `valueChanged` unless signals are blocked.
    * `QLineEdit::setText` stores the text unvalidated and emits `textChanged`
      when the text changed, unless signals are blocked.
    * the `valueChanged` lambda blocks the line edit's signals
      (`QSignalBlocker`), calls `setText(QString::number(value))` and restores
      the previous blocking state.
    * the `textChanged` lambda blocks the slider's signals, calls
      `setValue(value.toInt())` and restores the previous blocking state. -/
def exec : Nat → Op → Opacity → Option Opacity
  | 0, _, _ => none
  | fuel + 1, Op.sliderSetValue v, st =>
    let value := qBound 0 v SLIDER_MAX_VALUE
    if value = st.sliderValue then some st
    else if st.sliderBlocked then some { st with sliderValue := value }
    else exec fuel (Op.onValueChanged value) { st with sliderValue := value }
  | fuel + 1, Op.lineEditSetText t, st =>
    if t = st.text then some st
    else if st.lineEditBlocked then some { st with text := t }
    else exec fuel (Op.onTextChanged t) { st with text := t }
  | fuel + 1, Op.onValueChanged value, st =>
    let previous := st.lineEditBlocked
    let st1 := { st with
      lineEditBlocked := true
      log := st.log ++ [Call.ranValueChanged value, Call.calledSetText (number value)] }
    match exec fuel (Op.lineEditSetText (number value)) st1 with
    | none => none
    | some st2 => some { st2 with lineEditBlocked := previous }
  | fuel + 1, Op.onTextChanged value, st =>
    let previous := st.sliderBlocked
    let st1 := { st with
      sliderBlocked := true
      log := st.log ++ [Call.ranTextChanged value, Call.calledSetValue (toInt value)] }
    match exec fuel (Op.sliderSetValue (toInt value)) st1 with
    | none => none
    | some st2 => some { st2 with sliderBlocked := previous }

/-- State of the opacity widgets after `createWidgets`: slider at
    `SLIDER_MAX_VALUE`, line edit showing its decimal form, nothing blocked. -/
def Opacity.initial : Opacity :=
  { sliderValue := SLIDER_MAX_VALUE
    sliderBlocked := false
    text := number SLIDER_MAX_VALUE
    lineEditBlocked := false
    log := [] }

/-- A change made by the user: the slider moved to a value, or the line edit
    edited to a text. Each emits the widget's change signal. -/
inductive UserChange where
  | valueChanged (value : Int)
  | textChanged (text : String)
  deriving Repr, DecidableEq

/-- The change is one the widgets allow: a slider value inside the range
    `0..SLIDER_MAX_VALUE`, or a text the validator does not reject. -/
def UserChange.Allowed : UserChange → Prop
  | UserChange.valueChanged v => 0 ≤ v ∧ v ≤ SLIDER_MAX_VALUE
  | UserChange.textChanged t => validate opacityPattern t ≠ ValidatorState.Invalid

/-- The widget operation a user change amounts to. -/
def UserChange.op : UserChange → Op
  | UserChange.valueChanged v => Op.sliderSetValue v
  | UserChange.textChanged t => Op.lineEditSetText t

/-- Applies a sequence of user changes, each run to completion. -/
def userChanges (fuel : Nat) : List UserChange → Opacity → Option Opacity
  | [], st => some st
  | e :: es, st =>
    match exec fuel e.op st with
    | none => none
    | some st1 => userChanges fuel es st1

/-- Number of handler runs recorded in a log. -/
def handlerRuns : List Call → Nat
  | [] => 0
  | Call.ranValueChanged _ :: cs => handlerRuns cs + 1
  | Call.ranTextChanged _ :: cs => handlerRuns cs + 1
  | _ :: cs => handlerRuns cs

/-! ## Draw-tool buttons (`createWidgets`, `createConnections`) -/

/-- Identifiers of the six draw-tool buttons in `m_drawToolsButtonGroup`. -/
inductive DrawTool where
  | PencilDrawTool
  | ArrowDrawTool
  | BoxDrawTool
  | EllipseDrawTool
  | TriangleDrawTool
  | StarDrawTool
  deriving Repr, DecidableEq

/-- The six checkable buttons and their exclusive `QButtonGroup`: the checked
    flag of each button and the group's record of the checked button. -/
structure DrawTools where
  checked : DrawTool → Bool
  checkedButton : Option DrawTool

/-- `QAbstractButton::setChecked(v)` on button `b` of the exclusive group,
    with the `buttonToggled` lambda of `createConnections` connected.

    Nothing happens when the button already has that state, or when the
    group's checked button would be unchecked. Otherwise the flag is stored;
    when checking, the group records `b` and the previously checked button
    moves to its next check state; finally `buttonToggled(b, v)` is emitted,
    whose handler calls `b->setChecked(v)`. `fuel` bounds the call depth. -/
def setChecked : Nat → DrawTool → Bool → DrawTools → Option DrawTools
  | 0, _, _, _ => none
  | fuel + 1, b, v, st =>
    if st.checked b = v then some st
    else if v = false ∧ st.checkedButton = some b then some st
    else
      let st1 : DrawTools := { st with checked := Function.update st.checked b v }
      let notified : Option DrawTools :=
        if v = true then
          let st2 : DrawTools := { st1 with checkedButton := some b }
          match st1.checkedButton with
          | some p => if p ≠ b then setChecked fuel p (!st2.checked p) st2 else some st2
          | none => some st2
        else some st1
      match notified with
      | none => none
      | some st3 => setChecked fuel b v st3

/-- The lambda connected to `QButtonGroup::buttonToggled`:
    `button->setChecked(checked)`. -/
def onButtonToggled (fuel : Nat) (button : DrawTool) (checked : Bool) (st : DrawTools) :
    Option DrawTools :=
  setChecked fuel button checked st

/-- A mouse click on button `b` (`QAbstractButtonPrivate::click`): the checked
    button of the exclusive group keeps its state, any other button moves to
    its next check state. -/
def click (fuel : Nat) (b : DrawTool) (st : DrawTools) : Option DrawTools :=
  if st.checked b = true ∧ st.checkedButton = some b then some st
  else setChecked fuel b (!st.checked b) st

/-- A sequence of clicks, each handled to completion. -/
def clicks (fuel : Nat) : List DrawTool → DrawTools → Option DrawTools
  | [], st => some st
  | b :: bs, st =>
    match click fuel b st with
    | none => none
    | some st1 => clicks fuel bs st1

/-- State after `createWidgets`: only the pencil button was given
    `setChecked(true)`, and adding it to the exclusive group recorded it as the
    group's checked button. -/
def DrawTools.initial : DrawTools :=
  { checked := fun t => decide (t = DrawTool.PencilDrawTool)
    checkedButton := some DrawTool.PencilDrawTool }

/-- The button checked after a sequence of clicks from a state where `c` is
    checked: the last one clicked. -/
def lastClicked (c : DrawTool) (bs : List DrawTool) : DrawTool :=
  bs.getLast?.getD c

/-! ## Photo loading (`loadPhoto`, `openFile`) -/

/-- Colour spaces known to `QColorSpace`. -/
inductive ColorSpace where
  | SRgb
  | SRgbLinear
  | AdobeRgb
  | DisplayP3
  | ProPhotoRgb
  | Custom (id : Nat)
  deriving Repr, DecidableEq

/-- Contents of a non-null `QImage`: its colour space (`none` when the colour
    space is not valid) and its pixel data. -/
structure ImageData where
  colorSpace : Option ColorSpace
  pixels : List Nat
  deriving Repr, DecidableEq

/-- A `QImage`; `none` is the null image. -/
abbrev Image := Option ImageData

/-- `QImage::isNull`. -/
def Image.isNull (img : Image) : Bool := img.isNone

/-- `QImage::colorSpace`, `none` when it is not valid. -/
def Image.colorSpace (img : Image) : Option ColorSpace := img.bind (fun d => d.colorSpace)

/-- What the toolkit and the file system answer during `loadPhoto`. -/
structure Toolkit where
  read : String → Image
  errorString : String → String
  toNativeSeparators : String → String
  applicationDisplayName : String
  colorTransform : ColorSpace → ColorSpace → List Nat → List Nat

/-- `QImage::convertToColorSpace`: no effect on a null image or on an image
    without a valid colour space; otherwise the pixels are transformed and the
    image takes the target colour space. -/
def convertToColorSpace (tk : Toolkit) (target : ColorSpace) (img : Image) : Image :=
  match img with
  | none => none
  | some d =>
    match d.colorSpace with
    | none => some d
    | some source =>
      some { colorSpace := some target, pixels := tk.colorTransform source target d.pixels }

/-- An information message box: window title and text. -/
structure MessageBox where
  title : String
  text : String
  deriving Repr, DecidableEq

/-- The photo part of the window: the stored photo `m_photo`, the pixmap shown
    by `m_photoLabel` (the image it was made from), the visibility of
    `m_photoScrollArea`, the message boxes shown so far, the file paths
    `loadPhoto` was called with, and the static flag of `openFile`. -/
structure PhotoView where
  m_photo : Image
  labelPixmap : Option Image
  scrollAreaVisible : Bool
  messageBoxes : List MessageBox
  loadPhotoCalls : List String
  initiaPhotoOpen : Bool
  deriving Repr, DecidableEq

/-- `tr("Cannot load %1: %2").arg(path, error)`. -/
def cannotLoadText (path error : String) : String :=
  "Cannot load " ++ path ++ ": " ++ error

/-- `PhotoEditorWindow::loadPhoto`: the returned flag and the new state.
    The reader's auto-transform is part of `tk.read`; the label's geometry
    (`adjustSize`) is not part of the state. -/
def loadPhoto (tk : Toolkit) (filePath : String) (st : PhotoView) : Bool × PhotoView :=
  let st0 := { st with loadPhotoCalls := st.loadPhotoCalls ++ [filePath] }
  let newPhoto := tk.read filePath
  if newPhoto.isNull then
    (false, { st0 with
      messageBoxes := st0.messageBoxes ++
        [{ title := tk.applicationDisplayName
           text := cannotLoadText (tk.toNativeSeparators filePath) (tk.errorString filePath) }] })
  else
    let photo :=
      if newPhoto.colorSpace.isSome then convertToColorSpace tk ColorSpace.SRgb newPhoto
      else newPhoto
    (true, { st0 with
      m_photo := photo
      labelPixmap := some photo
      scrollAreaVisible := true })

/-- Result code of `QDialog::exec`. -/
inductive DialogCode where
  | Rejected
  | Accepted
  deriving Repr, DecidableEq

/-- How one run of the file dialog ended: the result of `exec` and the
    dialog's `selectedFiles`. -/
structure FileDialogRun where
  result : DialogCode
  selectedFiles : List String
  deriving Repr, DecidableEq

/-- `PhotoEditorWindow::openFile`. The static flag is cleared on first use;
    the photo is loaded from the first selected file only when the dialog was
    accepted. `none` stands for `first()` on an empty list. -/
def openFile (tk : Toolkit) (dlg : FileDialogRun) (st : PhotoView) : Option PhotoView :=
  let st1 := if st.initiaPhotoOpen then { st with initiaPhotoOpen := false } else st
  if dlg.result = DialogCode.Accepted then
    match dlg.selectedFiles.head? with
    | some file => some (loadPhoto tk file st1).2
    | none => none
  else some st1

/-- The photo part of the window after `createWidgets`: no stored photo, no
    pixmap on the label, nothing shown or loaded yet. `createWidgets` does not
    set the scroll area's visibility, so it is left open. -/
def PhotoView.initial (scrollAreaVisible : Bool) : PhotoView :=
  { m_photo := none
    labelPixmap := none
    scrollAreaVisible := scrollAreaVisible
    messageBoxes := []
    loadPhotoCalls := []
    initiaPhotoOpen := true }

/-- The image behind the pixmap the label shows; a label without a pixmap shows
    the null pixmap, which is what `QPixmap::fromImage` makes of a null image. -/
def PhotoView.shownImage (st : PhotoView) : Image := st.labelPixmap.join

/-- A sequence of `loadPhoto` calls, each with the toolkit answers of its
    moment and its file path. -/
def loadPhotos : List (Toolkit × String) → PhotoView → PhotoView
  | [], st => st
  | (tk, filePath) :: rest, st => loadPhotos rest (loadPhoto tk filePath st).2

/-! ## Colour history (`createWidgets`, `createConnections`) -/

/-- A `QColor` by its channels. -/
structure Color where
  red : Nat
  green : Nat
  blue : Nat
  alpha : Nat
  deriving Repr, DecidableEq

/-- An item of `m_colorCombobox`: the round swatch icon, given by its brush
    colour and its side, and the item text. -/
structure Swatch where
  color : Color
  iconSize : Int
  text : String
  deriving Repr, DecidableEq

/-- The colour combo-box: its items, `currentIndex` (-1 for none) and
    `maxCount`. -/
structure ComboBox where
  items : List Swatch
  currentIndex : Int
  maxCount : Nat
  deriving Repr, DecidableEq

/-- `QComboBox::count`. -/
def ComboBox.count (cb : ComboBox) : Int := cb.items.length

/-- `QComboBox::addItem`, that is `insertItem(count(), ...)`: nothing is
    inserted once `maxCount` items are held; the first item of an empty box
    becomes the current one. -/
def ComboBox.addItem (item : Swatch) (cb : ComboBox) : ComboBox :=
  if cb.maxCount ≤ cb.items.length then cb
  else if cb.items = [] ∧ cb.currentIndex < 0 then
    { cb with items := cb.items ++ [item], currentIndex := 0 }
  else { cb with items := cb.items ++ [item] }

/-- `QComboBox::setCurrentIndex`: an index outside the items clears the
    current index. -/
def ComboBox.setCurrentIndex (index : Int) (cb : ComboBox) : ComboBox :=
  if 0 ≤ index ∧ index < cb.count then { cb with currentIndex := index }
  else { cb with currentIndex := -1 }

/-- The combo-box after `createWidgets`: empty, with `setMaxCount(10)`. -/
def ComboBox.initial : ComboBox :=
  { items := [], currentIndex := -1, maxCount := 10 }

/-- The swatch drawn for a colour by the `colorSelected` lambda. -/
def swatchOf (iconSize : Int) (color : Color) : Swatch :=
  { color := color, iconSize := iconSize, text := "" }

/-- The lambda connected to `QColorDialog::colorSelected`; `iconSize` is the
    style's `PM_LargeIconSize`. -/
def onColorSelected (iconSize : Int) (color : Color) (cb : ComboBox) : ComboBox :=
  let itemsCount := cb.count
  ComboBox.setCurrentIndex itemsCount (ComboBox.addItem (swatchOf iconSize color) cb)

/-- The combo-box after a sequence of colour selections. -/
def colorSelections (iconSize : Int) (cs : List Color) : ComboBox :=
  cs.foldl (fun cb c => onColorSelected iconSize c cb) ComboBox.initial

/-! ## The window and its connections (`createConnections`) -/

/-- Window state touched by the title-bar buttons: the minimised and
    maximised flags of the window state, whether the window was closed, and
    the icon and tool tip of `m_maximizeButton`. -/
structure Window where
  minimized : Bool
  maximized : Bool
  closed : Bool
  maximizeIcon : String
  maximizeToolTip : String
  deriving Repr, DecidableEq

/-- `QWidget::showMinimized`. -/
def Window.showMinimized (w : Window) : Window := { w with minimized := true }

/-- `QWidget::showMaximized`. -/
def Window.showMaximized (w : Window) : Window :=
  { w with minimized := false, maximized := true }

/-- `QWidget::showNormal`. -/
def Window.showNormal (w : Window) : Window :=
  { w with minimized := false, maximized := false }

/-- `QWidget::close`. -/
def Window.close (w : Window) : Window := { w with closed := true }

/-- The lambda connected to `m_maximizeButton`'s `clicked`. -/
def onMaximizeClicked (w : Window) : Window :=
  if w.maximized then
    Window.showNormal
      { w with maximizeIcon := ":/resources/svg/maximize", maximizeToolTip := "Maximize" }
  else
    Window.showMaximized
      { w with maximizeIcon := ":/resources/svg/restore-down", maximizeToolTip := "Restore Down" }

/-- Buttons of the window that emit `clicked` (the draw-tool buttons are
    modelled by `DrawTools`). -/
inductive Button where
  | titleIconButton
  | settingsButton
  | helpButton
  | minimizeButton
  | maximizeButton
  | closeButton
  | fileMenuToolButton
  | undoButton
  | redoButton
  | resetButton
  | copyButton
  | pipetteToolButton
  deriving Repr, DecidableEq

/-- Actions of the file menu. -/
inductive Action where
  | openFileAction
  | saveFileAction
  | saveAsFileAction
  | printAction
  deriving Repr, DecidableEq

/-- Signals emitted by the objects of the window. -/
inductive Signal where
  | clicked (button : Button)
  | triggered (action : Action)
  | buttonToggled (button : DrawTool) (checked : Bool)
  | valueChanged (value : Int)
  | textChanged (text : String)
  | colorSelected (color : Color)
  deriving Repr, DecidableEq

/-- The state of the whole window. -/
structure App where
  window : Window
  colorDialogVisible : Bool
  tools : DrawTools
  opacity : Opacity
  colors : ComboBox
  photo : PhotoView

/-- What the surroundings answer while a handler runs: the toolkit, the
    outcome of the file dialog, and the style's `PM_LargeIconSize`. -/
structure Answers where
  toolkit : Toolkit
  dialog : FileDialogRun
  largeIconSize : Int

/-- Delivery of a signal to the handlers connected in `createConnections`, in
    the order of the `connect` calls. A signal without a connection runs
    nothing. -/
def deliver (fuel : Nat) (env : Answers) : Signal → App → Option App
  | Signal.clicked Button.minimizeButton, app =>
    some { app with window := app.window.showMinimized }
  | Signal.clicked Button.maximizeButton, app =>
    some { app with window := onMaximizeClicked app.window }
  | Signal.clicked Button.closeButton, app =>
    some { app with window := app.window.close }
  | Signal.buttonToggled button checked, app =>
    (onButtonToggled fuel button checked app.tools).map (fun t => { app with tools := t })
  | Signal.valueChanged value, app =>
    (exec fuel (Op.onValueChanged value) app.opacity).map (fun o => { app with opacity := o })
  | Signal.textChanged value, app =>
    (exec fuel (Op.onTextChanged value) app.opacity).map (fun o => { app with opacity := o })
  | Signal.clicked Button.pipetteToolButton, app =>
    some { app with colorDialogVisible := true }
  | Signal.colorSelected color, app =>
    some { app with colors := onColorSelected env.largeIconSize color app.colors }
  | Signal.triggered Action.openFileAction, app =>
    (openFile env.toolkit env.dialog app.photo).map (fun p => { app with photo := p })
  | _, app => some app

/-! ## Scaled dimensions (`PhotoEditorWindow` constructor, `qRound`) -/

/-- Rounds a rational to an integer, a tie going to the even neighbour. -/
def roundHalfEven (x : ℚ) : ℤ :=
  if x - ⌊x⌋ < 1 / 2 then ⌊x⌋
  else if 1 / 2 < x - ⌊x⌋ then ⌊x⌋ + 1
  else if ⌊x⌋ % 2 = 0 then ⌊x⌋
  else ⌊x⌋ + 1

/-- The `double` nearest to the exact value `x`: IEEE 754 binary64 rounding to
    nearest, ties to even. A finite `double` is represented by its exact
    rational value; for `2 ^ e ≤ |x| < 2 ^ (e + 1)` the result is the multiple
    of `2 ^ (e - 52)` nearest to `x`. Subnormal results and overflow, which
    the magnitudes met here stay far from, are not modelled. -/
def fl (x : ℚ) : ℚ :=
  if x = 0 then 0
  else if 0 < x then roundHalfEven (x / 2 ^ (Int.log 2 x - 52)) * 2 ^ (Int.log 2 x - 52)
  else -(roundHalfEven (-x / 2 ^ (Int.log 2 (-x) - 52)) * 2 ^ (Int.log 2 (-x) - 52))

/-- Conversion of a `double` to `int`: truncation toward zero; `none` when the
    truncated value does not fit 32 bits, where the conversion is undefined. -/
def toInt32 (x : ℚ) : Option ℤ :=
  if -2147483648 ≤ (if 0 ≤ x then ⌊x⌋ else ⌈x⌉) ∧ (if 0 ≤ x then ⌊x⌋ else ⌈x⌉) ≤ 2147483647 then
    some (if 0 ≤ x then ⌊x⌋ else ⌈x⌉)
  else none

/-- `qRound(double d)` of the toolkit:
    `d >= 0.0 ? int(d + 0.5) : int(d - double(int(d-1)) + 0.5) + int(d-1)`,
    every arithmetic step rounded to a `double`. -/
def qRound (d : ℚ) : Option ℤ :=
  if 0 ≤ d then toInt32 (fl (d + 1 / 2))
  else
    match toInt32 (fl (d - 1)) with
    | none => none
    | some k =>
      match toInt32 (fl (fl (d - k) + 1 / 2)) with
      | none => none
      | some r => toInt32 ((r + k : ℤ) : ℚ)

/-- `Constants::LOGICAL_DPI_REF_VALUE`, a `double`. -/
def LOGICAL_DPI_REF_VALUE : ℚ := 96

/-- The constructor's `m_scaleFactor = logicalDpiX() / LOGICAL_DPI_REF_VALUE`:
    the `int` is converted exactly and the quotient rounded to a `double`.
    Modelled from the spec: the member is declared in `photoeditorwindow.h`,
    which is not available; it is taken to be a `double` like the constant. -/
def m_scaleFactor (logicalDpiX : ℤ) : ℚ := fl (logicalDpiX / LOGICAL_DPI_REF_VALUE)

/-- A scaled dimension `qRound(c * m_scaleFactor)` for an `int` constant `c`:
    the product is a `double` multiplication. -/
def scaled (c : ℤ) (scaleFactor : ℚ) : Option ℤ := qRound (fl (c * scaleFactor))

/-! ## Minimum window size (`init`) -/

/-- The `double` literal `1.07`. -/
def heightFactor : ℚ := fl (107 / 100)

/-- The window as `createWidgets` leaves it: not minimised, maximised or
    closed, the maximise button with the maximize icon and tool tip. -/
def Window.created : Window :=
  { minimized := false
    maximized := false
    closed := false
    maximizeIcon := ":/resources/svg/maximize"
    maximizeToolTip := "Maximize" }

/-- What the end of `init` decides: the minimum size, the size the window is
    resized to (if any), and the window state. -/
structure InitOutcome where
  minimumSize : ℤ × ℤ
  resizedTo : Option (ℤ × ℤ)
  window : Window
  deriving Repr, DecidableEq

/-- The minimum-size part of `PhotoEditorWindow::init`. `availableSize` is the
    width and height of `availableGeometryRect`, the null rectangle (both 0)
    when no screen was found. The second comparison is evaluated only when the
    first one fails. `none` stands for a scaled dimension that does not fit an
    `int`. -/
def init (scaleFactor : ℚ) (availableSize : ℤ × ℤ) : Option InitOutcome :=
  match scaled 1366 scaleFactor, scaled 844 scaleFactor with
  | some width, some height =>
    let preferred : InitOutcome :=
      { minimumSize := (width, height)
        resizedTo := some (width, height)
        window := Window.created }
    let maximised : InitOutcome :=
      { minimumSize := availableSize
        resizedTo := none
        window := Window.created.showMaximized }
    if availableSize = (0, 0) then some preferred
    else if availableSize.1 < width then some maximised
    else
      match qRound (fl (height * heightFactor)) with
      | some tall => if availableSize.2 < tall then some maximised else some preferred
      | none => none
  | _, _ => none

/-! ## Style sheets (`QString::arg`, `fileMenuStyleSheet`) -/

/-- Reads a place marker number after a `%`: one decimal digit, or two when a
    second digit follows. Gives the number and the text after the marker. -/
def escapeAt : List Char → Option (Nat × List Char)
  | [] => none
  | [c1] => (digitValue c1).map (fun v1 => (v1, []))
  | c1 :: c2 :: rest =>
    match digitValue c1 with
    | none => none
    | some v1 =>
      match digitValue c2 with
      | some v2 => some (10 * v1 + v2, rest)
      | none => some (v1, c2 :: rest)

/-- The numbers of all place markers `%1`, `%2`, ... of a text, in order of
    appearance. `fuel` bounds the number of characters read. -/
def escapeNumbers : Nat → List Char → List Nat
  | 0, _ => []
  | _ + 1, [] => []
  | fuel + 1, c :: rest =>
    if c = '%' then
      match escapeAt rest with
      | some (n, _) => n :: escapeNumbers fuel rest
      | none => escapeNumbers fuel rest
    else escapeNumbers fuel rest

/-- The lowest number of a list, if any. -/
def lowest : List Nat → Option Nat
  | [] => none
  | n :: ns =>
    match lowest ns with
    | none => some n
    | some m => some (min n m)

/-- Replaces every place marker whose number has a substitute by that
    substitute; the substitutes themselves are not read again. -/
def replaceEscapes (subst : Nat → Option (List Char)) : Nat → List Char → List Char
  | 0, cs => cs
  | _ + 1, [] => []
  | fuel + 1, c :: rest =>
    if c = '%' then
      match escapeAt rest with
      | some (n, after) =>
        match subst n with
        | some a => a ++ replaceEscapes subst fuel after
        | none => c :: replaceEscapes subst fuel rest
      | none => c :: replaceEscapes subst fuel rest
    else c :: replaceEscapes subst fuel rest

/-- `QString::arg(a)`: every occurrence of the lowest-numbered place marker is
    replaced by `a`; a text without place marker is returned unchanged. -/
def arg (s a : String) : String :=
  match lowest (escapeNumbers s.length s.data) with
  | none => s
  | some n =>
    String.mk (replaceEscapes (fun k => if k = n then some a.data else none) s.length s.data)

/-- `QString::arg(a1, a2)`: the lowest-numbered place marker is replaced by
    `a1` and the next higher one by `a2`, in one pass. -/
def arg2 (s a1 a2 : String) : String :=
  match lowest (escapeNumbers s.length s.data) with
  | none => s
  | some n1 =>
    match lowest ((escapeNumbers s.length s.data).filter (fun k => n1 < k)) with
    | none =>
      String.mk (replaceEscapes (fun k => if k = n1 then some a1.data else none)
        s.length s.data)
    | some n2 =>
      String.mk (replaceEscapes
        (fun k => if k = n1 then some a1.data else if k = n2 then some a2.data else none)
        s.length s.data)

/-- The constants of `fileMenuStyleSheet`, which the available `constants.h`
    does not declare; they are left open. -/
structure FileMenuConstants where
  FILE_MENU_SEPARATOR_HEIGHT_PX : ℤ
  FILE_MENU_ITEM_PADDING_PX : ℤ
  FILE_TOOL_BUTTON_COLOR : String
  FILE_MENU_COLOR : String
  FILE_MENU_SEPARATOR_COLOR : String

/-- The rule `fileMenuStyleSheet` appends for `QMenu::separator`:
    `QString("QMenu::separator { height: %1px; background: %1; }")
    .arg(fileMenuSeparatorHeight).arg(FILE_MENU_SEPARATOR_COLOR)`. -/
def separatorRule (fileMenuSeparatorHeight : ℤ) (color : String) : String :=
  arg (arg "QMenu::separator \x7b height: %1px; background: %1; \x7d"
    (number fileMenuSeparatorHeight)) color

/-- `PhotoEditorWindow::fileMenuStyleSheet`; `none` when a scaled dimension
    does not fit an `int`. -/
def fileMenuStyleSheet (k : FileMenuConstants) (scaleFactor : ℚ) : Option String :=
  match scaled k.FILE_MENU_SEPARATOR_HEIGHT_PX scaleFactor,
      scaled k.FILE_MENU_ITEM_PADDING_PX scaleFactor with
  | some fileMenuSeparatorHeight, some fileMenuItemPadding =>
    some (arg2 "QMenu \x7b background-color: %1; color: %2; \x7d"
        k.FILE_TOOL_BUTTON_COLOR k.FILE_MENU_COLOR ++
      arg "QMenu::item \x7b padding: %1px; \x7d" (number fileMenuItemPadding) ++
      "QMenu::item:selected \x7b background-color: lightgrey; \x7d" ++
      separatorRule fileMenuSeparatorHeight k.FILE_MENU_SEPARATOR_COLOR)
  | _, _ => none

/-- Sample values for the constants of the file menu. -/
def sampleFileMenuConstants : FileMenuConstants :=
  { FILE_MENU_SEPARATOR_HEIGHT_PX := 1
    FILE_MENU_ITEM_PADDING_PX := 8
    FILE_TOOL_BUTTON_COLOR := "white"
    FILE_MENU_COLOR := "black"
    FILE_MENU_SEPARATOR_COLOR := "#3C3D3F" }

/-! ## Invariants and sample data -/

/-- Slider and line edit agree, allowing for the emptied line edit. -/
def Synced (st : Opacity) : Prop :=
  st.sliderBlocked = false ∧ st.lineEditBlocked = false ∧
    (st.text = number st.sliderValue ∨ (st.text = "" ∧ st.sliderValue = 0))

/-- Exactly the button `c` is checked and the group records it. -/
def OnlyChecked (st : DrawTools) (c : DrawTool) : Prop :=
  st.checked = (fun t => decide (t = c)) ∧ st.checkedButton = some c

/-- A toolkit whose reader fails on every file with the error `no such file`. -/
def failingToolkit : Toolkit :=
  { read := fun _ => none
    errorString := fun _ => "no such file"
    toNativeSeparators := fun p => p
    applicationDisplayName := "PhotoEditor"
    colorTransform := fun _ _ px => px }

/-- A photo view holding a one-pixel image without a colour space. -/
def samplePhotoView : PhotoView :=
  { m_photo := some { colorSpace := none, pixels := [7] }
    labelPixmap := some (some { colorSpace := none, pixels := [7] })
    scrollAreaVisible := true
    messageBoxes := []
    loadPhotoCalls := []
    initiaPhotoOpen := true }

/-- A toolkit whose reader yields a one-pixel Adobe RGB image for every file
    and whose colour transform adds one to every pixel. -/
def adobeToolkit : Toolkit :=
  { read := fun _ => some { colorSpace := some ColorSpace.AdobeRgb, pixels := [7] }
    errorString := fun _ => ""
    toNativeSeparators := fun p => p
    applicationDisplayName := "PhotoEditor"
    colorTransform := fun _ _ px => px.map (fun x => x + 1) }

/-! # Lemmas -/

/-! ## Facts about characters and the matcher -/

theorem char_le_iff (a b : Char) : a ≤ b ↔ a.toNat ≤ b.toNat := Iff.rfl

theorem digit_cases (c : Char) (h : '0' ≤ c ∧ c ≤ '9') :
    c = '0' ∨ c = '1' ∨ c = '2' ∨ c = '3' ∨ c = '4' ∨ c = '5' ∨ c = '6' ∨
      c = '7' ∨ c = '8' ∨ c = '9' := by
  obtain ⟨h0, h9⟩ := h
  rw [char_le_iff] at h0 h9
  have e0 : ('0' : Char).toNat = 48 := rfl
  have e9 : ('9' : Char).toNat = 57 := rfl
  rw [e0] at h0
  rw [e9] at h9
  have hc : c = Char.ofNat c.toNat := (Char.ofNat_toNat c).symm
  generalize c.toNat = k at *
  subst hc
  interval_cases k <;> decide

namespace Rx

theorem nonEmpty_of_nullable (r : Rx) (h : r.nullable = true) : r.nonEmpty = true := by
  induction r with
  | empty => simp [nullable] at h
  | eps => rfl
  | range lo hi => simp [nullable] at h
  | seq r s ihr ihs =>
    simp only [nullable, Bool.and_eq_true] at h
    simp [nonEmpty, ihr h.1, ihs h.2]
  | alt r s ihr ihs =>
    simp only [nullable, Bool.or_eq_true] at h
    rcases h with h | h
    · simp [nonEmpty, ihr h]
    · simp [nonEmpty, ihs h]
  | opt r _ => rfl

theorem nonEmpty_of_deriv (r : Rx) (c : Char) (h : (r.deriv c).nonEmpty = true) :
    r.nonEmpty = true := by
  induction r with
  | empty => simp [deriv, nonEmpty] at h
  | eps => rfl
  | range lo hi =>
    simp only [deriv] at h
    split at h
    · rename_i hc
      simp only [nonEmpty, decide_eq_true_eq]
      exact le_trans hc.1 hc.2
    · simp [nonEmpty] at h
  | seq r s ihr ihs =>
    simp only [deriv] at h
    split at h
    · rename_i hn
      simp only [nonEmpty, Bool.or_eq_true, Bool.and_eq_true] at h
      rcases h with h | h
      · simp [nonEmpty, ihr h.1, h.2]
      · simp [nonEmpty, ihs h, nonEmpty_of_nullable r hn]
    · simp only [nonEmpty, Bool.and_eq_true] at h
      simp [nonEmpty, ihr h.1, h.2]
  | alt r s ihr ihs =>
    simp only [deriv, nonEmpty, Bool.or_eq_true] at h
    rcases h with h | h
    · simp [nonEmpty, ihr h]
    · simp [nonEmpty, ihs h]
  | opt r _ => rfl

theorem nonEmpty_of_derivs (cs : List Char) (r : Rx)
    (h : (r.derivs cs).nonEmpty = true) : r.nonEmpty = true := by
  induction cs generalizing r with
  | nil => exact h
  | cons c cs ih => exact nonEmpty_of_deriv r c (ih (r.deriv c) h)

theorem charsIn_deriv (p : Char → Prop) (r : Rx) (c : Char) (h : charsIn p r) :
    charsIn p (r.deriv c) := by
  induction r with
  | empty => trivial
  | eps => trivial
  | range lo hi => simp only [deriv]; split <;> trivial
  | seq r s ihr ihs =>
    simp only [deriv]
    split
    · exact ⟨⟨ihr h.1, h.2⟩, ihs h.2⟩
    · exact ⟨ihr h.1, h.2⟩
  | alt r s ihr ihs => exact ⟨ihr h.1, ihs h.2⟩
  | opt r ih => exact ih h

theorem char_of_deriv_nonEmpty (p : Char → Prop) (r : Rx) (c : Char) (h : charsIn p r)
    (hne : (r.deriv c).nonEmpty = true) : p c := by
  induction r with
  | empty => simp [deriv, nonEmpty] at hne
  | eps => simp [deriv, nonEmpty] at hne
  | range lo hi =>
    simp only [deriv] at hne
    split at hne
    · rename_i hc
      exact h c hc.1 hc.2
    · simp [nonEmpty] at hne
  | seq r s ihr ihs =>
    simp only [deriv] at hne
    split at hne
    · simp only [nonEmpty, Bool.or_eq_true, Bool.and_eq_true] at hne
      rcases hne with hne | hne
      · exact ihr h.1 hne.1
      · exact ihs h.2 hne
    · simp only [nonEmpty, Bool.and_eq_true] at hne
      exact ihr h.1 hne.1
  | alt r s ihr ihs =>
    simp only [deriv, nonEmpty, Bool.or_eq_true] at hne
    rcases hne with hne | hne
    · exact ihr h.1 hne
    · exact ihs h.2 hne
  | opt r ih => exact ih h hne

end Rx

theorem opacityPattern_charsIn : Rx.charsIn IsDigit opacityPattern := by
  have h0 : ('0' : Char) ≤ '1' := by decide
  have h1 : ('1' : Char) ≤ '9' := by decide
  have h2 : ('0' : Char) ≤ '9' := by decide
  refine ⟨⟨?_, ?_⟩, ?_, ?_, ?_⟩
  · intro c a b; exact ⟨le_trans h0 a, b⟩
  · intro c a b; exact ⟨a, b⟩
  · intro c a b; exact ⟨le_trans h0 a, le_trans b h1⟩
  · intro c a b; exact ⟨a, le_trans b h2⟩
  · intro c a b; exact ⟨a, le_trans b h2⟩

theorem allowedTexts_exactMatch :
    ∀ s ∈ allowedTexts, opacityPattern.exactMatch s = true := by
  decide

theorem first_char_cases (a : Char) (h : (opacityPattern.deriv a).nonEmpty = true) :
    a = '1' ∨ a = '2' ∨ a = '3' ∨ a = '4' ∨ a = '5' ∨ a = '6' ∨ a = '7' ∨
      a = '8' ∨ a = '9' := by
  have hd := Rx.char_of_deriv_nonEmpty IsDigit opacityPattern a opacityPattern_charsIn h
  rcases digit_cases a hd with rfl | hd
  · exact absurd h (by decide)
  · exact hd

theorem second_char_cases (a b : Char)
    (h : ((opacityPattern.deriv a).deriv b).nonEmpty = true) :
    b = '0' ∨ b = '1' ∨ b = '2' ∨ b = '3' ∨ b = '4' ∨ b = '5' ∨ b = '6' ∨
      b = '7' ∨ b = '8' ∨ b = '9' :=
  digit_cases b (Rx.char_of_deriv_nonEmpty IsDigit (opacityPattern.deriv a) b
    (Rx.charsIn_deriv IsDigit opacityPattern a opacityPattern_charsIn) h)

theorem bool_clash {x : Bool} {P : Prop} (h : x = true) (h2 : x = false) : P := by
  rw [h] at h2
  cases h2

theorem third_char_cases (a b c : Char)
    (h : (((opacityPattern.deriv a).deriv b).deriv c).nonEmpty = true) :
    a = '1' ∧ b = '0' ∧ c = '0' := by
  have hb := Rx.nonEmpty_of_deriv _ c h
  have ha := Rx.nonEmpty_of_deriv _ b hb
  have hc := digit_cases c (Rx.char_of_deriv_nonEmpty IsDigit _ c
    (Rx.charsIn_deriv IsDigit _ b
      (Rx.charsIn_deriv IsDigit opacityPattern a opacityPattern_charsIn)) h)
  rcases first_char_cases a ha with rfl | rfl | rfl | rfl | rfl | rfl | rfl | rfl | rfl <;>
    rcases second_char_cases _ b hb with
      rfl | rfl | rfl | rfl | rfl | rfl | rfl | rfl | rfl | rfl <;>
    first
    | exact bool_clash h rfl
    | skip
  rcases hc with rfl | rfl | rfl | rfl | rfl | rfl | rfl | rfl | rfl | rfl <;>
    first
    | exact ⟨rfl, rfl, rfl⟩
    | exact absurd h (by decide)

theorem fourth_char_dead (d : Char) :
    ((((opacityPattern.deriv '1').deriv '0').deriv '0').deriv d).nonEmpty = false := rfl

theorem derivs_cons (r : Rx) (c : Char) (cs : List Char) :
    r.derivs (c :: cs) = (r.deriv c).derivs cs := rfl

/-- Every text that is a beginning of a match of the opacity pattern is empty
    or one of the decimal forms of 1 to 100. -/
theorem partialMatch_texts (cs : List Char)
    (h : (opacityPattern.derivs cs).nonEmpty = true) :
    cs = [] ∨ String.mk cs ∈ allowedTexts := by
  match cs, h with
  | [], _ => exact Or.inl rfl
  | [a], h =>
    right
    rcases first_char_cases a h with
      rfl | rfl | rfl | rfl | rfl | rfl | rfl | rfl | rfl <;> decide
  | [a, b], h =>
    right
    have ha := Rx.nonEmpty_of_deriv _ b h
    rcases first_char_cases a ha with
      rfl | rfl | rfl | rfl | rfl | rfl | rfl | rfl | rfl <;>
    rcases second_char_cases _ b h with
      rfl | rfl | rfl | rfl | rfl | rfl | rfl | rfl | rfl | rfl <;> decide
  | [a, b, c], h =>
    right
    obtain ⟨rfl, rfl, rfl⟩ := third_char_cases a b c h
    decide
  | a :: b :: c :: d :: w, h =>
    exfalso
    have h4 := Rx.nonEmpty_of_derivs w _ h
    obtain ⟨rfl, rfl, rfl⟩ := third_char_cases a b c (Rx.nonEmpty_of_deriv _ d h4)
    exact bool_clash h4 (fourth_char_dead d)

/-- A text matches the opacity pattern exactly when it is one of the decimal
    forms of 1 to 100. -/
theorem exactMatch_iff_allowed (s : String) :
    opacityPattern.exactMatch s = true ↔ s ∈ allowedTexts := by
  constructor
  · intro h
    rcases partialMatch_texts s.data (Rx.nonEmpty_of_nullable _ h) with h0 | h1
    · have : opacityPattern.exactMatch s = false := by
        unfold Rx.exactMatch
        rw [h0]
        rfl
      exact bool_clash h this
    · exact h1
  · exact allowedTexts_exactMatch s

/-! ## Facts about decimal texts -/

theorem isDigit_toNat (c : Char) (h : IsDigit c) : 48 ≤ c.toNat ∧ c.toNat ≤ 57 := h

theorem parseDigits_cons_digit (a : Char) (t : List Char) (acc : Nat) (h : IsDigit a) :
    parseDigits (a :: t) acc = parseDigits t (10 * acc + (a.toNat - 48)) := by
  have h2 : '0' ≤ a ∧ a ≤ '9' := h
  simp [parseDigits, digitValue, h2]

theorem parseDigits_lower (cs : List Char) (acc v : Nat)
    (h : parseDigits cs acc = some v) : acc * 10 ^ cs.length ≤ v := by
  induction cs generalizing acc with
  | nil =>
    simp only [parseDigits, Option.some.injEq] at h
    simp [h]
  | cons c cs ih =>
    simp only [parseDigits] at h
    cases hd : digitValue c with
    | none => simp [hd] at h
    | some d =>
      simp only [hd] at h
      have := ih _ h
      have e : acc * 10 ^ (c :: cs).length = (10 * acc) * 10 ^ cs.length := by
        simp [pow_succ]; ring
      rw [e]
      exact le_trans (Nat.mul_le_mul_right _ (Nat.le_add_right _ _)) this

theorem char_of_toNat (c : Char) (k : Nat) (h : c.toNat = k) : c = Char.ofNat k := by
  rw [← h, Char.ofNat_toNat]

theorem allowedTexts_canonical :
    ∀ s ∈ allowedTexts, 1 ≤ (parseDigits s.data 0).getD 0 ∧
      (parseDigits s.data 0).getD 0 ≤ 100 ∧
      IsCanonicalDecimal s ((parseDigits s.data 0).getD 0) := by
  unfold IsCanonicalDecimal
  decide

theorem canonical_allowed (s : String) (n : Nat) (h1 : 1 ≤ n) (h100 : n ≤ 100)
    (h : IsCanonicalDecimal s n) : s ∈ allowedTexts := by
  obtain ⟨cs⟩ := s
  obtain ⟨hne, hdig, hhead, hp⟩ := h
  simp only at hne hdig hhead hp
  match cs, hne, hdig, hhead, hp with
  | [a], _, hdig, hhead, hp =>
    have ha := hdig a (by simp)
    rw [parseDigits_cons_digit a [] 0 ha] at hp
    simp only [parseDigits, Option.some.injEq] at hp
    subst hp
    rcases digit_cases a ha with
      rfl | rfl | rfl | rfl | rfl | rfl | rfl | rfl | rfl | rfl <;>
    first
    | exact absurd rfl hhead
    | decide
  | [a, b], _, hdig, hhead, hp =>
    have ha := hdig a (by simp)
    have hb := hdig b (by simp)
    rcases digit_cases a ha with
      rfl | rfl | rfl | rfl | rfl | rfl | rfl | rfl | rfl | rfl <;>
    rcases digit_cases b hb with
      rfl | rfl | rfl | rfl | rfl | rfl | rfl | rfl | rfl | rfl <;>
    first
    | exact absurd rfl hhead
    | decide
  | a :: b :: c :: w, _, hdig, hhead, hp =>
    have ha := hdig a (by simp)
    have hb := hdig b (by simp)
    have hc := hdig c (by simp)
    rw [parseDigits_cons_digit a _ 0 ha, parseDigits_cons_digit b _ _ hb,
      parseDigits_cons_digit c _ _ hc] at hp
    have hlow := parseDigits_lower _ _ _ hp
    have ha2 := isDigit_toNat a ha
    have hb2 := isDigit_toNat b hb
    have hc2 := isDigit_toNat c hc
    have ha0 : a.toNat ≠ 48 := by
      intro h48
      apply hhead
      rw [char_of_toNat a 48 h48]
      rfl
    have hpow : 1 ≤ 10 ^ w.length := Nat.one_le_pow _ _ (by decide)
    have hK : 100 ≤ 10 * (10 * (10 * 0 + (a.toNat - 48)) + (b.toNat - 48)) + (c.toNat - 48) := by
      omega
    match w, hp, hlow, hpow with
    | [], hp, hlow, _ =>
      simp only [List.length_nil, pow_zero, mul_one] at hlow
      have e1 : a.toNat = 49 := by omega
      have e2 : b.toNat = 48 := by omega
      have e3 : c.toNat = 48 := by omega
      rw [char_of_toNat a 49 e1, char_of_toNat b 48 e2, char_of_toNat c 48 e3]
      decide
    | d :: w, hp, hlow, _ =>
      exfalso
      have hpow2 : 1 ≤ 10 ^ w.length := Nat.one_le_pow _ _ (by decide)
      have e : 10 ^ (d :: w).length = 10 * 10 ^ w.length := by
        simp [pow_succ]; ring
      rw [e] at hlow
      have : 100 * (10 * 1) ≤ n :=
        le_trans (Nat.mul_le_mul hK (Nat.mul_le_mul_left 10 hpow2)) hlow
      omega

theorem allowedTexts_roundTrip :
    ∀ t ∈ allowedTexts, 1 ≤ toInt t ∧ toInt t ≤ 100 ∧ number (toInt t) = t := by
  decide

theorem allowedTexts_number :
    ∀ i, i < 100 → number (Int.ofNat (i + 1)) ∈ allowedTexts ∧
      toInt (number (Int.ofNat (i + 1))) = Int.ofNat (i + 1) := by
  decide

/-! ## Facts about the opacity handlers -/

theorem exec_onValueChanged (fuel : Nat) (st : Opacity) (v : Int) :
    exec (fuel + 2) (Op.onValueChanged v) st =
      some { st with
        text := number v
        log := st.log ++ [Call.ranValueChanged v, Call.calledSetText (number v)] } := by
  simp only [exec]
  split_ifs with h
  · simp [h]
  · rfl

theorem exec_onTextChanged (fuel : Nat) (st : Opacity) (t : String) :
    exec (fuel + 2) (Op.onTextChanged t) st =
      some { st with
        sliderValue := qBound 0 (toInt t) SLIDER_MAX_VALUE
        log := st.log ++ [Call.ranTextChanged t, Call.calledSetValue (toInt t)] } := by
  simp only [exec]
  split_ifs with h
  · simp [h]
  · rfl

theorem exec_sliderSetValue (fuel : Nat) (st : Opacity) (v : Int) :
    exec (fuel + 3) (Op.sliderSetValue v) st =
      if qBound 0 v SLIDER_MAX_VALUE = st.sliderValue then some st
      else if st.sliderBlocked then
        some { st with sliderValue := qBound 0 v SLIDER_MAX_VALUE }
      else exec (fuel + 2) (Op.onValueChanged (qBound 0 v SLIDER_MAX_VALUE))
        { st with sliderValue := qBound 0 v SLIDER_MAX_VALUE } := rfl

theorem exec_lineEditSetText (fuel : Nat) (st : Opacity) (t : String) :
    exec (fuel + 3) (Op.lineEditSetText t) st =
      if t = st.text then some st
      else if st.lineEditBlocked then some { st with text := t }
      else exec (fuel + 2) (Op.onTextChanged t) { st with text := t } := rfl

theorem qBound_of_mem (v hi : Int) (h0 : 0 ≤ v) (h1 : v ≤ hi) : qBound 0 v hi = v := by
  unfold qBound
  rw [min_eq_right h1, max_eq_right h0]

theorem allowed_text_cases (t : String)
    (h : validate opacityPattern t ≠ ValidatorState.Invalid) :
    t = "" ∨ t ∈ allowedTexts := by
  have hne : (opacityPattern.derivs t.data).nonEmpty = true := by
    unfold validate at h
    split_ifs at h with h1 h2
    · exact Rx.nonEmpty_of_nullable _ h1
    · exact h2
    · exact absurd rfl h
  rcases partialMatch_texts t.data hne with h0 | h1
  · left
    exact String.ext h0
  · right
    exact h1

theorem synced_step (fuel : Nat) (e : UserChange) (he : e.Allowed) (st : Opacity)
    (hs : Synced st) : ∃ st1, exec (fuel + 3) e.op st = some st1 ∧ Synced st1 := by
  obtain ⟨hb1, hb2, hsync⟩ := hs
  cases e with
  | valueChanged v =>
    obtain ⟨h0, h1⟩ := he
    show ∃ st1, exec (fuel + 3) (Op.sliderSetValue v) st = some st1 ∧ Synced st1
    rw [exec_sliderSetValue, qBound_of_mem v _ h0 h1]
    by_cases hv : v = st.sliderValue
    · rw [if_pos hv]
      exact ⟨st, rfl, hb1, hb2, hsync⟩
    · rw [if_neg hv, if_neg (by simp [hb1]), exec_onValueChanged]
      exact ⟨_, rfl, hb1, hb2, Or.inl rfl⟩
  | textChanged t =>
    show ∃ st1, exec (fuel + 3) (Op.lineEditSetText t) st = some st1 ∧ Synced st1
    rw [exec_lineEditSetText]
    by_cases ht : t = st.text
    · rw [if_pos ht]
      exact ⟨st, rfl, hb1, hb2, hsync⟩
    · rw [if_neg ht, if_neg (by simp [hb2]), exec_onTextChanged]
      refine ⟨_, rfl, hb1, hb2, ?_⟩
      rcases allowed_text_cases t he with h0 | hmem
      · right
        subst h0
        exact ⟨rfl, rfl⟩
      · left
        obtain ⟨r1, r2, r3⟩ := allowedTexts_roundTrip t hmem
        show t = number (qBound 0 (toInt t) SLIDER_MAX_VALUE)
        have r2b : toInt t ≤ SLIDER_MAX_VALUE := r2
        rw [qBound_of_mem _ _ (by omega) r2b, r3]

theorem synced_run (fuel : Nat) (es : List UserChange) (hes : ∀ e ∈ es, e.Allowed)
    (st : Opacity) (hs : Synced st) :
    ∃ st1, userChanges (fuel + 3) es st = some st1 ∧ Synced st1 := by
  induction es generalizing st with
  | nil => exact ⟨st, rfl, hs⟩
  | cons e es ih =>
    obtain ⟨st1, h1, hs1⟩ := synced_step fuel e (hes e (by simp)) st hs
    obtain ⟨st2, h2, hs2⟩ := ih (fun x hx => hes x (by simp [hx])) st1 hs1
    refine ⟨st2, ?_, hs2⟩
    simp only [userChanges, h1]
    exact h2

/-! ## Facts about the draw-tool buttons -/

theorem setChecked_same (fuel : Nat) (b : DrawTool) (st : DrawTools) :
    setChecked (fuel + 1) b (st.checked b) st = some st := by
  simp [setChecked]

theorem click_onlyChecked (fuel : Nat) (b c : DrawTool) (st : DrawTools)
    (h : OnlyChecked st c) :
    ∃ st1, click (fuel + 3) b st = some st1 ∧ OnlyChecked st1 b := by
  obtain ⟨st_checked, st_button⟩ := st
  obtain ⟨h1, h2⟩ := h
  simp only at h1 h2
  subst h1 h2
  by_cases hbc : b = c
  · subst hbc
    exact ⟨⟨fun t => decide (t = b), some b⟩, by simp [click], rfl, rfl⟩
  · have hcb : c ≠ b := fun e => hbc e.symm
    refine ⟨⟨fun t => decide (t = b), some b⟩, ?_, rfl, rfl⟩
    simp only [click, setChecked, hbc, hcb, Function.update, decide_False, decide_True,
      Bool.not_false, Bool.not_true, ne_eq, not_false_eq_true, eq_rec_constant, dite_eq_ite,
      Option.some.injEq, and_false, false_and, ite_true, ite_false, if_true, if_false,
      Bool.false_eq_true, Bool.true_eq_false, and_self, true_and, and_true]
    congr 1
    funext t
    by_cases htc : t = c
    · subst htc
      simp [Function.update, hcb]
    · by_cases htb : t = b <;> simp [Function.update, htc, htb, hbc]

theorem clicks_onlyChecked (fuel : Nat) (bs : List DrawTool) (c : DrawTool) (st : DrawTools)
    (h : OnlyChecked st c) :
    ∃ st1, clicks (fuel + 3) bs st = some st1 ∧ OnlyChecked st1 (lastClicked c bs) := by
  induction bs generalizing c st with
  | nil => exact ⟨st, rfl, h⟩
  | cons b bs ih =>
    obtain ⟨st1, h1, hs1⟩ := click_onlyChecked fuel b c st h
    obtain ⟨st2, h2, hs2⟩ := ih b st1 hs1
    refine ⟨st2, ?_, ?_⟩
    · simp only [clicks, h1]
      exact h2
    · have e : lastClicked c (b :: bs) = lastClicked b bs := by
        unfold lastClicked
        cases bs with
        | nil => rfl
        | cons x xs =>
          rw [List.getLast?_cons_cons, List.getLast?_eq_getLast _ (List.cons_ne_nil x xs)]
          rfl
      rw [e]
      exact hs2


/-! ## Facts about the colour history -/

theorem colorSelections_snoc (iconSize : Int) (cs : List Color) (c : Color) :
    colorSelections iconSize (cs ++ [c]) =
      onColorSelected iconSize c (colorSelections iconSize cs) := by
  simp [colorSelections, List.foldl_append]

theorem setCurrentIndex_items (i : Int) (cb : ComboBox) :
    (ComboBox.setCurrentIndex i cb).items = cb.items := by
  unfold ComboBox.setCurrentIndex
  split_ifs <;> rfl

theorem setCurrentIndex_maxCount (i : Int) (cb : ComboBox) :
    (ComboBox.setCurrentIndex i cb).maxCount = cb.maxCount := by
  unfold ComboBox.setCurrentIndex
  split_ifs <;> rfl

theorem addItem_maxCount (item : Swatch) (cb : ComboBox) :
    (ComboBox.addItem item cb).maxCount = cb.maxCount := by
  unfold ComboBox.addItem
  split_ifs <;> rfl

theorem addItem_items_room (item : Swatch) (cb : ComboBox)
    (h : cb.items.length < cb.maxCount) :
    (ComboBox.addItem item cb).items = cb.items ++ [item] := by
  have h1 : ¬ cb.maxCount ≤ cb.items.length := by omega
  unfold ComboBox.addItem
  rw [if_neg h1]
  split_ifs <;> rfl

theorem onColorSelected_maxCount (iconSize : Int) (c : Color) (cb : ComboBox) :
    (onColorSelected iconSize c cb).maxCount = cb.maxCount := by
  show (ComboBox.setCurrentIndex _ (ComboBox.addItem _ cb)).maxCount = _
  rw [setCurrentIndex_maxCount, addItem_maxCount]

theorem colorSelections_maxCount (iconSize : Int) (cs : List Color) :
    (colorSelections iconSize cs).maxCount = 10 := by
  induction cs using List.reverseRecOn with
  | nil => rfl
  | append_singleton cs c ih =>
    rw [colorSelections_snoc, onColorSelected_maxCount, ih]

theorem onColorSelected_room (iconSize : Int) (c : Color) (cb : ComboBox)
    (h : cb.items.length < cb.maxCount) :
    (onColorSelected iconSize c cb).items = cb.items ++ [swatchOf iconSize c] ∧
      (onColorSelected iconSize c cb).currentIndex = cb.items.length := by
  have hi := addItem_items_room (swatchOf iconSize c) cb h
  constructor
  · show (ComboBox.setCurrentIndex _ (ComboBox.addItem _ cb)).items = _
    rw [setCurrentIndex_items, hi]
  · show (ComboBox.setCurrentIndex cb.count (ComboBox.addItem _ cb)).currentIndex = _
    unfold ComboBox.setCurrentIndex ComboBox.count
    rw [hi]
    rw [if_pos (by simp)]

theorem onColorSelected_full (iconSize : Int) (c : Color) (cb : ComboBox)
    (h : cb.maxCount ≤ cb.items.length) :
    (onColorSelected iconSize c cb).items = cb.items := by
  show (ComboBox.setCurrentIndex _ (ComboBox.addItem _ cb)).items = _
  rw [setCurrentIndex_items]
  unfold ComboBox.addItem
  rw [if_pos h]

/-! ## Facts about photo loading -/

theorem loadPhoto_calls (tk : Toolkit) (filePath : String) (st : PhotoView) :
    (loadPhoto tk filePath st).2.loadPhotoCalls = st.loadPhotoCalls ++ [filePath] := by
  unfold loadPhoto
  dsimp only
  split_ifs <;> rfl

/-- The label shows the stored photo, and the stored photo is in sRGB or has
    no valid colour space. -/
theorem loadPhoto_tracks (tk : Toolkit) (filePath : String) (st : PhotoView)
    (h : st.shownImage = st.m_photo ∧
      (st.m_photo.colorSpace = some ColorSpace.SRgb ∨ st.m_photo.colorSpace = none)) :
    (loadPhoto tk filePath st).2.shownImage = (loadPhoto tk filePath st).2.m_photo ∧
      ((loadPhoto tk filePath st).2.m_photo.colorSpace = some ColorSpace.SRgb ∨
        (loadPhoto tk filePath st).2.m_photo.colorSpace = none) := by
  unfold loadPhoto
  cases hr : tk.read filePath with
  | none => simpa [Image.isNull, PhotoView.shownImage] using h
  | some d =>
    cases hcs : d.colorSpace with
    | none => simp [Image.isNull, Image.colorSpace, hcs, PhotoView.shownImage]
    | some cs =>
      simp [Image.isNull, Image.colorSpace, hcs, convertToColorSpace, PhotoView.shownImage]

theorem loadPhoto_shown (tk : Toolkit) (filePath : String) (st : PhotoView)
    (h : (st.scrollAreaVisible = true ∧ st.labelPixmap = some st.m_photo) ∨
      (tk.read filePath).isNull = false) :
    (loadPhoto tk filePath st).2.scrollAreaVisible = true ∧
      (loadPhoto tk filePath st).2.labelPixmap = some (loadPhoto tk filePath st).2.m_photo := by
  unfold loadPhoto
  cases hr : (tk.read filePath).isNull with
  | true =>
    rcases h with h | h
    · simpa [hr] using h
    · rw [hr] at h
      cases h
  | false => simp [hr]

theorem loadPhotos_tracks (loads : List (Toolkit × String)) (st : PhotoView)
    (h : st.shownImage = st.m_photo ∧
      (st.m_photo.colorSpace = some ColorSpace.SRgb ∨ st.m_photo.colorSpace = none)) :
    (loadPhotos loads st).shownImage = (loadPhotos loads st).m_photo ∧
      ((loadPhotos loads st).m_photo.colorSpace = some ColorSpace.SRgb ∨
        (loadPhotos loads st).m_photo.colorSpace = none) := by
  induction loads generalizing st with
  | nil => exact h
  | cons l loads ih =>
    obtain ⟨tk, filePath⟩ := l
    exact ih _ (loadPhoto_tracks tk filePath st h)

theorem loadPhotos_shown (loads : List (Toolkit × String)) (st : PhotoView)
    (h : (st.scrollAreaVisible = true ∧ st.labelPixmap = some st.m_photo) ∨
      ∃ l ∈ loads, (l.1.read l.2).isNull = false) :
    (loadPhotos loads st).scrollAreaVisible = true ∧
      (loadPhotos loads st).labelPixmap = some (loadPhotos loads st).m_photo := by
  induction loads generalizing st with
  | nil =>
    rcases h with h | ⟨l, hl, _⟩
    · exact h
    · cases hl
  | cons l loads ih =>
    obtain ⟨tk, filePath⟩ := l
    show (loadPhotos loads (loadPhoto tk filePath st).2).scrollAreaVisible = true ∧ _
    by_cases hr : (tk.read filePath).isNull = false
    · exact ih _ (Or.inl (loadPhoto_shown tk filePath st (Or.inr hr)))
    · rcases h with h | ⟨l, hl, hl2⟩
      · exact ih _ (Or.inl (loadPhoto_shown tk filePath st (Or.inl h)))
      · rcases List.mem_cons.mp hl with rfl | hmem
        · exact absurd hl2 hr
        · exact ih _ (Or.inr ⟨l, hmem, hl2⟩)

theorem colorSelections_length_le (iconSize : Int) (cs : List Color) :
    (colorSelections iconSize cs).items.length ≤ 10 := by
  induction cs using List.reverseRecOn with
  | nil => exact Nat.zero_le 10
  | append_singleton cs c ih =>
    rw [colorSelections_snoc]
    have hmax := colorSelections_maxCount iconSize cs
    by_cases h : (colorSelections iconSize cs).items.length < 10
    · rw [(onColorSelected_room iconSize c _ (by rw [hmax]; exact h)).1]
      simp
      omega
    · rw [onColorSelected_full iconSize c _ (by rw [hmax]; omega)]
      exact ih

/-! ## Facts about double rounding and scaled dimensions -/

theorem roundHalfEven_intCast (z : ℤ) : roundHalfEven (z : ℚ) = z := by
  simp [roundHalfEven]

theorem floor_le_roundHalfEven (x : ℚ) : ⌊x⌋ ≤ roundHalfEven x := by
  unfold roundHalfEven
  split_ifs <;> omega

theorem roundHalfEven_le_floor_succ (x : ℚ) : roundHalfEven x ≤ ⌊x⌋ + 1 := by
  unfold roundHalfEven
  split_ifs <;> omega

theorem le_roundHalfEven (x : ℚ) (z : ℤ) (h : (z : ℚ) ≤ x) : z ≤ roundHalfEven x :=
  le_trans (Int.le_floor.mpr h) (floor_le_roundHalfEven x)

theorem roundHalfEven_le (x : ℚ) (z : ℤ) (h : x ≤ (z : ℚ)) : roundHalfEven x ≤ z := by
  rcases h.lt_or_eq with h1 | h1
  · have : ⌊x⌋ < z := Int.floor_lt.mpr h1
    have := roundHalfEven_le_floor_succ x
    omega
  · rw [h1, roundHalfEven_intCast]


theorem fl_of_pos (x : ℚ) (h : 0 < x) :
    fl x = roundHalfEven (x / 2 ^ (Int.log 2 x - 52)) * 2 ^ (Int.log 2 x - 52) := by
  unfold fl
  rw [if_neg (ne_of_gt h), if_pos h]

theorem two_zpow_pos (e : ℤ) : (0 : ℚ) < 2 ^ e := zpow_pos (by norm_num) e

theorem log_lt_of_lt (x : ℚ) (h : 0 < x) (e : ℤ) (hx : x < 2 ^ e) : Int.log 2 x < e :=
  (Int.lt_zpow_iff_log_lt (by norm_num) h).mp (by exact_mod_cast hx)

/-- Bounds by integers survive rounding, below two to the 53. -/
theorem fl_int_bounds (x : ℚ) (h : 0 < x) (hx : x < 2 ^ (53 : ℤ)) (n : ℤ) :
    ((n : ℚ) ≤ x → (n : ℚ) ≤ fl x) ∧ (x ≤ (n : ℚ) → fl x ≤ (n : ℚ)) := by
  have hlog := log_lt_of_lt x h 53 hx
  obtain ⟨k, hk⟩ : ∃ k : ℕ, (k : ℤ) = 52 - Int.log 2 x := ⟨(52 - Int.log 2 x).toNat, by omega⟩
  have hulp : (2 : ℚ) ^ (Int.log 2 x - 52) = 1 / 2 ^ k := by
    have : Int.log 2 x - 52 = -(k : ℤ) := by omega
    rw [this, zpow_neg, zpow_natCast, one_div]
  have hpk : (0 : ℚ) < 2 ^ k := pow_pos (by norm_num) k
  rw [fl_of_pos x h, hulp]
  have hdiv : x / (1 / 2 ^ k) = x * 2 ^ k := by field_simp
  rw [hdiv]
  constructor
  · intro hn
    have h1 : ((n * 2 ^ k : ℤ) : ℚ) ≤ x * 2 ^ k := by
      push_cast
      exact mul_le_mul_of_nonneg_right hn hpk.le
    have h2 := le_roundHalfEven _ _ h1
    have h3 : ((n * 2 ^ k : ℤ) : ℚ) ≤ (roundHalfEven (x * 2 ^ k) : ℚ) := by exact_mod_cast h2
    push_cast at h3
    rw [mul_one_div, le_div_iff₀ hpk]
    exact h3
  · intro hn
    have h1 : x * 2 ^ k ≤ ((n * 2 ^ k : ℤ) : ℚ) := by
      push_cast
      exact mul_le_mul_of_nonneg_right hn hpk.le
    have h2 := roundHalfEven_le _ _ h1
    have h3 : (roundHalfEven (x * 2 ^ k) : ℚ) ≤ ((n * 2 ^ k : ℤ) : ℚ) := by exact_mod_cast h2
    push_cast at h3
    rw [mul_one_div, div_le_iff₀ hpk]
    exact h3

/-- A positive value with `j` binary fraction digits below two to the
    `53 - j` is a double. -/
theorem fl_exact (x : ℚ) (h : 0 < x) (m : ℤ) (j : ℕ) (hm : x = m / 2 ^ j)
    (hx : x < 2 ^ (53 - (j : ℤ))) : fl x = x := by
  have hlog := log_lt_of_lt x h _ hx
  obtain ⟨k, hk⟩ : ∃ k : ℕ, (k : ℤ) = 52 - (j : ℤ) - Int.log 2 x :=
    ⟨(52 - (j : ℤ) - Int.log 2 x).toNat, by omega⟩
  have hulp : (2 : ℚ) ^ (Int.log 2 x - 52) = 1 / 2 ^ (k + j) := by
    have : Int.log 2 x - 52 = -((k + j : ℕ) : ℤ) := by push_cast; omega
    rw [this, zpow_neg, zpow_natCast, one_div]
  have hpj : (0 : ℚ) < 2 ^ j := pow_pos (by norm_num) j
  have hpk : (0 : ℚ) < 2 ^ (k + j) := pow_pos (by norm_num) _
  rw [fl_of_pos x h, hulp]
  have hdiv : x / (1 / 2 ^ (k + j)) = ((m * 2 ^ k : ℤ) : ℚ) := by
    rw [hm]
    push_cast
    field_simp
    ring
  rw [hdiv, roundHalfEven_intCast, hm]
  push_cast
  field_simp
  ring


theorem fl_zero : fl 0 = 0 := by simp [fl]

theorem fl_nonneg (x : ℚ) (h : 0 ≤ x) : 0 ≤ fl x := by
  rcases h.lt_or_eq with h1 | h1
  · rw [fl_of_pos x h1]
    have hz : (0 : ℤ) ≤ roundHalfEven (x / 2 ^ (Int.log 2 x - 52)) :=
      le_roundHalfEven _ 0 (by
        push_cast
        exact div_nonneg h1.le (two_zpow_pos _).le)
    exact mul_nonneg (by exact_mod_cast hz) (two_zpow_pos _).le
  · rw [← h1, fl_zero]

theorem toInt32_of_nonneg (x : ℚ) (h : 0 ≤ x) (hx : x < 2147483648) :
    toInt32 x = some ⌊x⌋ := by
  have h0 : (0 : ℤ) ≤ ⌊x⌋ := Int.floor_nonneg.mpr h
  have h1 : ⌊x⌋ < 2147483648 := Int.floor_lt.mpr (by exact_mod_cast hx)
  unfold toInt32
  simp only [h, if_true]
  rw [if_pos ⟨by omega, by omega⟩]

theorem qRound_of_nonneg (d : ℚ) (h : 0 ≤ d) : qRound d = toInt32 (fl (d + 1 / 2)) := by
  unfold qRound
  rw [if_pos h]

/-- A non-negative value with `j ≤ 20` binary fraction digits, below two to
    the 31 after adding one half, is scaled without any rounding error. -/
theorem qRound_fl_exact (x : ℚ) (h : 0 ≤ x) (m : ℤ) (j : ℕ) (hj : j ≤ 20)
    (hm : x = m / 2 ^ j) (hx : x + 1 / 2 < 2147483648) :
    qRound (fl x) = some ⌊x + 1 / 2⌋ := by
  have hflx : fl x = x := by
    rcases h.lt_or_eq with h1 | h1
    · have hx2 : x < 2147483648 := by linarith
      refine fl_exact x h1 m j hm (lt_of_lt_of_le hx2 ?_)
      have : (2147483648 : ℚ) = 2 ^ (31 : ℤ) := by norm_num
      rw [this]
      exact zpow_le_zpow_right₀ (by norm_num) (by omega)
    · rw [← h1, fl_zero]
  have hpj : (0 : ℚ) < 2 ^ j := pow_pos (by norm_num) j
  have hfly : fl (x + 1 / 2) = x + 1 / 2 := by
    refine fl_exact (x + 1 / 2) (by linarith) (2 * m + 2 ^ j) (j + 1) ?_
      (lt_of_lt_of_le hx ?_)
    · rw [hm]
      push_cast
      field_simp
      ring
    · have : (2147483648 : ℚ) = 2 ^ (31 : ℤ) := by norm_num
      rw [this]
      exact zpow_le_zpow_right₀ (by norm_num) (by push_cast; omega)
  rw [hflx, qRound_of_nonneg x h, hfly, toInt32_of_nonneg _ (by linarith) hx]

theorem m_scaleFactor_ref : m_scaleFactor 96 = 1 := by
  unfold m_scaleFactor LOGICAL_DPI_REF_VALUE
  have : ((96 : ℤ) : ℚ) / 96 = 1 := by norm_num
  rw [this]
  exact fl_exact 1 (by norm_num) 1 0 (by norm_num) (by norm_num)

theorem m_scaleFactor_of_three_dvd (d t : ℤ) (hd : d = 3 * t) (h0 : 0 < d)
    (h1 : d ≤ 2147483647) : m_scaleFactor d = t / 2 ^ 5 := by
  unfold m_scaleFactor LOGICAL_DPI_REF_VALUE
  have e : (d : ℚ) / 96 = t / 2 ^ 5 := by
    rw [hd]
    push_cast
    field_simp
    ring
  have ht : (0 : ℚ) < t := by
    have : 0 < t := by omega
    exact_mod_cast this
  have ht2 : (t : ℚ) ≤ 2147483647 := by
    have : t ≤ 2147483647 := by omega
    exact_mod_cast this
  rw [e]
  refine fl_exact _ (by positivity) t 5 rfl ?_
  have : (2 : ℚ) ^ (53 - ((5 : ℕ) : ℤ)) = 2 ^ 48 := by norm_num
  rw [this]
  calc (t : ℚ) / 2 ^ 5 ≤ t := div_le_self ht.le (by norm_num)
    _ ≤ 2147483647 := ht2
    _ < 2 ^ 48 := by norm_num


theorem roundHalfEven_down (x : ℚ) (z : ℤ) (h1 : (z : ℚ) ≤ x) (h2 : x - z < 1 / 2) :
    roundHalfEven x = z := by
  have hf : ⌊x⌋ = z := Int.floor_eq_iff.mpr ⟨h1, by linarith⟩
  unfold roundHalfEven
  rw [hf, if_pos h2]

theorem fl_eval_down (x : ℚ) (e z : ℤ) (h0 : 0 < x) (hlo : 2 ^ e ≤ x) (hhi : x < 2 ^ (e + 1))
    (h1 : (z : ℚ) ≤ x / 2 ^ (e - 52)) (h2 : x / 2 ^ (e - 52) - z < 1 / 2) :
    fl x = z * 2 ^ (e - 52) := by
  have hlog : Int.log 2 x = e := by
    have a : e ≤ Int.log 2 x :=
      (Int.zpow_le_iff_le_log (by norm_num) h0).mp (by exact_mod_cast hlo)
    have b : Int.log 2 x < e + 1 := log_lt_of_lt x h0 _ hhi
    omega
  rw [fl_of_pos x h0, hlog, roundHalfEven_down _ z h1 h2]

theorem scaled_120_at_98 : scaled 120 (m_scaleFactor 98) = some 122 := by
  have hs : m_scaleFactor 98 = (4597424619607381 : ℤ) * 2 ^ ((0 : ℤ) - 52) := by
    unfold m_scaleFactor LOGICAL_DPI_REF_VALUE
    exact fl_eval_down _ 0 _ (by norm_num) (by norm_num) (by norm_num) (by norm_num)
      (by norm_num)
  have hp : fl (((120 : ℤ) : ℚ) * m_scaleFactor 98) =
      (8620171161763839 : ℤ) * 2 ^ ((6 : ℤ) - 52) := by
    rw [hs]
    exact fl_eval_down _ 6 _ (by norm_num) (by norm_num) (by norm_num) (by norm_num)
      (by norm_num)
  have hy : fl ((8620171161763839 : ℤ) * 2 ^ ((6 : ℤ) - 52) + 1 / 2) =
      (8620171161763839 : ℤ) * 2 ^ ((6 : ℤ) - 52) + 1 / 2 :=
    fl_exact _ (by norm_num) 8655355533852671 46 (by norm_num) (by norm_num)
  unfold scaled
  rw [hp, qRound_of_nonneg _ (by norm_num), hy, toInt32_of_nonneg _ (by norm_num) (by norm_num)]
  congr 1
  exact Int.floor_eq_iff.mpr ⟨by norm_num, by norm_num⟩


theorem fl_bounds (x : ℚ) (h : 0 ≤ x) (hx : x < 2 ^ (53 : ℤ)) (n : ℤ) :
    ((n : ℚ) ≤ x → (n : ℚ) ≤ fl x) ∧ (x ≤ (n : ℚ) → fl x ≤ (n : ℚ)) := by
  rcases h.lt_or_eq with h1 | h1
  · exact fl_int_bounds x h1 hx n
  · rw [← h1, fl_zero]
    exact ⟨id, id⟩

theorem qRound_bounds (d : ℚ) (lo hi : ℤ) (h0 : 0 ≤ lo) (hlo : (lo : ℚ) ≤ d)
    (hhi : d ≤ (hi : ℚ)) (hmax : hi < 2147483647) :
    ∃ r, qRound d = some r ∧ lo ≤ r ∧ r ≤ hi + 1 := by
  have hlo0 : (0 : ℚ) ≤ lo := by exact_mod_cast h0
  have hhi1 : (hi : ℚ) < 2147483647 := by exact_mod_cast hmax
  have hd0 : 0 ≤ d := le_trans hlo0 hlo
  have hy := fl_bounds (d + 1 / 2) (by linarith)
    (lt_of_lt_of_le (by linarith : d + 1 / 2 < 2147483648) (by norm_num))
  have h1 : (lo : ℚ) ≤ fl (d + 1 / 2) := (hy lo).1 (by linarith)
  have h2 : fl (d + 1 / 2) ≤ ((hi + 1 : ℤ) : ℚ) := (hy (hi + 1)).2 (by push_cast; linarith)
  have h2b : fl (d + 1 / 2) ≤ (hi : ℚ) + 1 := by
    push_cast at h2
    exact h2
  refine ⟨⌊fl (d + 1 / 2)⌋, ?_, Int.le_floor.mpr h1, ?_⟩
  · rw [qRound_of_nonneg d hd0, toInt32_of_nonneg _ (le_trans hlo0 h1) (by linarith)]
  · exact Int.floor_le_iff.mpr (lt_of_le_of_lt h2 (by push_cast; linarith))

theorem scaled_bounds (c : ℤ) (s : ℚ) (n : ℤ) (hc : 0 ≤ c) (hs : 0 ≤ s)
    (hn : (c : ℚ) * s ≤ (n : ℚ)) (hmax : n < 2147483647) :
    ∃ r, scaled c s = some r ∧ 0 ≤ r ∧ r ≤ n + 1 := by
  have hc0 : (0 : ℚ) ≤ c := by exact_mod_cast hc
  have hn1 : (n : ℚ) < 2147483647 := by exact_mod_cast hmax
  have hx0 : 0 ≤ (c : ℚ) * s := mul_nonneg hc0 hs
  have hx := fl_bounds ((c : ℚ) * s) hx0
    (lt_of_lt_of_le (by linarith : (c : ℚ) * s < 2147483648) (by norm_num))
  exact qRound_bounds (fl ((c : ℚ) * s)) 0 n (le_refl 0)
    ((hx 0).1 (by exact_mod_cast hx0)) ((hx n).2 hn) hmax

theorem heightFactor_bounds : (1 : ℚ) ≤ heightFactor ∧ heightFactor ≤ 2 := by
  have h := fl_bounds (107 / 100) (by norm_num) (by norm_num)
  exact ⟨by simpa using (h 1).1 (by norm_num), by simpa using (h 2).2 (by norm_num)⟩

theorem tall_bounds (height : ℤ) (h0 : 0 ≤ height) (h1 : height ≤ 1000000000) :
    ∃ tall, qRound (fl (height * heightFactor)) = some tall ∧ height ≤ tall := by
  have hh0 : (0 : ℚ) ≤ height := by exact_mod_cast h0
  have hh1 : (height : ℚ) ≤ 1000000000 := by exact_mod_cast h1
  obtain ⟨f1, f2⟩ := heightFactor_bounds
  have hlo : (height : ℚ) ≤ height * heightFactor := by nlinarith
  have hhi : (height : ℚ) * heightFactor ≤ ((2 * height : ℤ) : ℚ) := by
    push_cast
    nlinarith
  have hx := fl_bounds ((height : ℚ) * heightFactor) (by linarith)
    (lt_of_lt_of_le (by push_cast at hhi; linarith :
      (height : ℚ) * heightFactor < 2147483648) (by norm_num))
  obtain ⟨r, hr, hr1, _⟩ := qRound_bounds (fl ((height : ℚ) * heightFactor)) height
    (2 * height) h0 ((hx height).1 hlo) ((hx (2 * height)).2 hhi) (by omega)
  exact ⟨r, hr, hr1⟩

/-- For a scale factor between 0 and 1000000 the scaled sizes fit an `int`,
    `init` chooses a minimum size, and the choice follows the two comparisons. -/
theorem init_of_bounded_scale (s : ℚ) (hs0 : 0 ≤ s) (hs1 : s ≤ 1000000) (sw sh : ℤ) :
    ∃ width height tall outcome,
      scaled 1366 s = some width ∧ scaled 844 s = some height ∧
      qRound (fl (height * heightFactor)) = some tall ∧
      init s (sw, sh) = some outcome ∧
      ((sw, sh) ≠ (0, 0) → outcome.minimumSize.1 ≤ sw ∧ outcome.minimumSize.2 ≤ sh) ∧
      ((sw, sh) ≠ (0, 0) → (sw < width ∨ sh < tall) →
        outcome.minimumSize = (sw, sh) ∧ outcome.window.maximized = true) ∧
      ((sw, sh) ≠ (0, 0) → ¬ (sw < width ∨ sh < tall) →
        outcome.minimumSize = (width, height) ∧ outcome.window.maximized = false) ∧
      ((sw, sh) = (0, 0) →
        outcome.minimumSize = (width, height) ∧ outcome.window.maximized = false) := by
  obtain ⟨width, hw, hw0, hw1⟩ := scaled_bounds 1366 s 1366000000 (by norm_num) hs0
    (by push_cast; linarith) (by norm_num)
  obtain ⟨height, hh, hh0, hh1⟩ := scaled_bounds 844 s 844000000 (by norm_num) hs0
    (by push_cast; linarith) (by norm_num)
  obtain ⟨tall, ht, hht⟩ := tall_bounds height hh0 (by omega)
  have hinit : init s (sw, sh) =
      if (sw, sh) = (0, 0) then
        some ⟨(width, height), some (width, height), Window.created⟩
      else if sw < width then some ⟨(sw, sh), none, Window.created.showMaximized⟩
      else if sh < tall then some ⟨(sw, sh), none, Window.created.showMaximized⟩
      else some ⟨(width, height), some (width, height), Window.created⟩ := by
    unfold init
    simp only [hw, hh, ht]
  refine ⟨width, height, tall, ?_⟩
  rw [hinit]
  by_cases hnull : (sw, sh) = (0, 0)
  · rw [if_pos hnull]
    exact ⟨_, hw, hh, ht, rfl, fun h => absurd hnull h, fun h => absurd hnull h,
      fun h => absurd hnull h, fun _ => ⟨rfl, rfl⟩⟩
  · rw [if_neg hnull]
    by_cases h1 : sw < width
    · rw [if_pos h1]
      exact ⟨_, hw, hh, ht, rfl, fun _ => ⟨le_refl _, le_refl _⟩,
        fun _ _ => ⟨rfl, rfl⟩, fun _ h => absurd (Or.inl h1) h, fun h => absurd h hnull⟩
    · rw [if_neg h1]
      by_cases h2 : sh < tall
      · rw [if_pos h2]
        exact ⟨_, hw, hh, ht, rfl, fun _ => ⟨le_refl _, le_refl _⟩,
          fun _ _ => ⟨rfl, rfl⟩, fun _ h => absurd (Or.inr h2) h, fun h => absurd h hnull⟩
      · rw [if_neg h2]
        refine ⟨_, hw, hh, ht, rfl, fun _ => ⟨?_, ?_⟩, ?_, fun _ _ => ⟨rfl, rfl⟩,
          fun h => absurd h hnull⟩
        · show width ≤ sw
          omega
        · show height ≤ sh
          omega
        · intro _ h
          rcases h with h | h
          · exact absurd h h1
          · exact absurd h h2

theorem toInt32_some (x : ℚ) (r : ℤ) (hx : 0 ≤ x) (h : toInt32 x = some r) : r = ⌊x⌋ := by
  unfold toInt32 at h
  simp only [hx, if_true] at h
  split_ifs at h
  exact (Option.some.inj h).symm

theorem qRound_some_ge (d : ℚ) (lo r : ℤ) (h0 : 0 ≤ lo) (hlo : (lo : ℚ) ≤ d)
    (hd : d < 2 ^ (52 : ℤ)) (h : qRound d = some r) : lo ≤ r := by
  have hlo0 : (0 : ℚ) ≤ lo := by exact_mod_cast h0
  have hd0 : 0 ≤ d := le_trans hlo0 hlo
  have hy := fl_bounds (d + 1 / 2) (by linarith)
    (lt_of_lt_of_le (by linarith : d + 1 / 2 < 2 ^ (52 : ℤ) + 1 / 2) (by norm_num))
  have h1 : (lo : ℚ) ≤ fl (d + 1 / 2) := (hy lo).1 (by linarith)
  rw [qRound_of_nonneg d hd0] at h
  rw [toInt32_some _ r (le_trans hlo0 h1) h]
  exact Int.le_floor.mpr h1

theorem toInt32_le (x : ℚ) (r : ℤ) (hx : 0 ≤ x) (h : toInt32 x = some r) :
    r ≤ 2147483647 := by
  unfold toInt32 at h
  simp only [hx, if_true] at h
  split_ifs at h with hc
  rw [← Option.some.inj h]
  exact hc.2

theorem qRound_le (d : ℚ) (r : ℤ) (h0 : 0 ≤ d) (h : qRound d = some r) :
    r ≤ 2147483647 := by
  rw [qRound_of_nonneg d h0] at h
  exact toInt32_le _ r (fl_nonneg _ (by linarith)) h

theorem scaled_some_bounds (c : ℤ) (s : ℚ) (r : ℤ) (hc : 0 ≤ c) (hs : 0 ≤ s)
    (h : scaled c s = some r) : 0 ≤ r ∧ r ≤ 2147483647 := by
  have hc0 : (0 : ℚ) ≤ c := by exact_mod_cast hc
  have hd0 : 0 ≤ fl ((c : ℚ) * s) := fl_nonneg _ (mul_nonneg hc0 hs)
  unfold scaled at h
  refine ⟨?_, qRound_le _ r hd0 h⟩
  rw [qRound_of_nonneg _ hd0] at h
  rw [toInt32_some _ r (fl_nonneg _ (by linarith)) h]
  exact Int.floor_nonneg.mpr (fl_nonneg _ (by linarith))

theorem tall_some_ge (height tall : ℤ) (h0 : 0 ≤ height) (h1 : height ≤ 2147483647)
    (h : qRound (fl (height * heightFactor)) = some tall) : height ≤ tall := by
  have hh0 : (0 : ℚ) ≤ height := by exact_mod_cast h0
  have hh1 : (height : ℚ) ≤ 2147483647 := by exact_mod_cast h1
  obtain ⟨f1, f2⟩ := heightFactor_bounds
  have hlo : (height : ℚ) ≤ height * heightFactor := by nlinarith
  have hhi : (height : ℚ) * heightFactor ≤ ((2 * height : ℤ) : ℚ) := by
    push_cast
    nlinarith
  have hhi2 : (height : ℚ) * heightFactor ≤ 2 * 2147483647 := by
    push_cast at hhi
    linarith
  have hx := fl_bounds ((height : ℚ) * heightFactor) (by linarith)
    (lt_of_le_of_lt hhi2 (by norm_num))
  have hup : fl ((height : ℚ) * heightFactor) ≤ ((2 * height : ℤ) : ℚ) :=
    (hx (2 * height)).2 hhi
  refine qRound_some_ge _ height tall h0 ((hx height).1 hlo) ?_ h
  push_cast at hup
  exact lt_of_le_of_lt hup (lt_of_le_of_lt (by linarith : 2 * (height : ℚ) ≤ 2 * 2147483647)
    (by norm_num))

theorem scaled_one (c : ℤ) (h0 : 0 ≤ c) (h1 : c ≤ 2147483647) : scaled c 1 = some c := by
  have hc0 : (0 : ℚ) ≤ c := by exact_mod_cast h0
  have hc1 : (c : ℚ) ≤ 2147483647 := by exact_mod_cast h1
  unfold scaled
  rw [qRound_fl_exact ((c : ℚ) * 1) (by linarith) c 0 (by omega) (by norm_num)
    (by linarith)]
  congr 1
  exact Int.floor_eq_iff.mpr ⟨by norm_num, by norm_num⟩

theorem onMaximizeClicked_consistent (w : Window) :
    ((onMaximizeClicked w).maximized = true ∧
        (onMaximizeClicked w).maximizeIcon = ":/resources/svg/restore-down" ∧
        (onMaximizeClicked w).maximizeToolTip = "Restore Down") ∨
      ((onMaximizeClicked w).maximized = false ∧
        (onMaximizeClicked w).maximizeIcon = ":/resources/svg/maximize" ∧
        (onMaximizeClicked w).maximizeToolTip = "Maximize") := by
  unfold onMaximizeClicked
  cases h : w.maximized
  · left
    exact ⟨rfl, rfl, rfl⟩
  · right
    exact ⟨rfl, rfl, rfl⟩

theorem init_of_scaled (s : ℚ) (sw sh width height : ℤ) (hw : scaled 1366 s = some width)
    (hh : scaled 844 s = some height) :
    init s (sw, sh) =
      if (sw, sh) = (0, 0) then some ⟨(width, height), some (width, height), Window.created⟩
      else if sw < width then some ⟨(sw, sh), none, Window.created.showMaximized⟩
      else
        match qRound (fl (height * heightFactor)) with
        | some tall =>
          if sh < tall then some ⟨(sw, sh), none, Window.created.showMaximized⟩
          else some ⟨(width, height), some (width, height), Window.created⟩
        | none => none := by
  unfold init
  simp only [hw, hh]

theorem fileMenuStyleSheet_of_scaled (k : FileMenuConstants) (s : ℚ) (height padding : ℤ)
    (hh : scaled k.FILE_MENU_SEPARATOR_HEIGHT_PX s = some height)
    (hp : scaled k.FILE_MENU_ITEM_PADDING_PX s = some padding) :
    fileMenuStyleSheet k s =
      some (arg2 "QMenu \x7b background-color: %1; color: %2; \x7d"
          k.FILE_TOOL_BUTTON_COLOR k.FILE_MENU_COLOR ++
        arg "QMenu::item \x7b padding: %1px; \x7d" (number padding) ++
        "QMenu::item:selected \x7b background-color: lightgrey; \x7d" ++
        separatorRule height k.FILE_MENU_SEPARATOR_COLOR) := by
  unfold fileMenuStyleSheet
  simp only [hh, hp]

/-! ## Facts about style-sheet texts -/

theorem digitChar_ne_percent (n : Nat) : Nat.digitChar (n % 10) ≠ '%' := by
  have h : n % 10 < 10 := Nat.mod_lt _ (by decide)
  generalize n % 10 = k at h
  interval_cases k <;> decide

theorem toDigitsCore_no_percent (fuel n : Nat) (ds : List Char)
    (h : ∀ c ∈ ds, c ≠ '%') : ∀ c ∈ Nat.toDigitsCore 10 fuel n ds, c ≠ '%' := by
  induction fuel generalizing n ds with
  | zero => simpa [Nat.toDigitsCore] using h
  | succ fuel ih =>
    have hd : ∀ c ∈ Nat.digitChar (n % 10) :: ds, c ≠ '%' := by
      intro c hc
      rcases List.mem_cons.mp hc with rfl | hc
      · exact digitChar_ne_percent _
      · exact h c hc
    simp only [Nat.toDigitsCore]
    split_ifs
    · exact hd
    · exact ih _ _ hd

theorem number_no_percent (v : ℤ) : ∀ c ∈ (number v).data, c ≠ '%' := by
  cases v with
  | ofNat m =>
    exact toDigitsCore_no_percent _ _ [] (by simp)
  | negSucc m =>
    intro c hc
    rcases List.mem_cons.mp hc with rfl | hc
    · decide
    · exact toDigitsCore_no_percent _ _ [] (by simp) c hc

theorem escapeNumbers_no_percent (fuel : Nat) (cs : List Char) (h : ∀ c ∈ cs, c ≠ '%') :
    escapeNumbers fuel cs = [] := by
  induction fuel generalizing cs with
  | zero => rfl
  | succ fuel ih =>
    cases cs with
    | nil => rfl
    | cons c rest =>
      simp only [escapeNumbers]
      rw [if_neg (h c (by simp))]
      exact ih rest (fun x hx => h x (by simp [hx]))

theorem arg_no_percent (s a : String) (h : ∀ c ∈ s.data, c ≠ '%') : arg s a = s := by
  unfold arg
  rw [escapeNumbers_no_percent _ _ h]
  rfl

theorem arg_separator_template (a : String) :
    arg "QMenu::separator \x7b height: %1px; background: %1; \x7d" a =
      "QMenu::separator \x7b height: " ++ a ++ "px; background: " ++ a ++ "; \x7d" := by
  have hl : lowest (escapeNumbers
      ("QMenu::separator \x7b height: %1px; background: %1; \x7d").length
      ("QMenu::separator \x7b height: %1px; background: %1; \x7d").data) = some 1 := by
    decide
  unfold arg
  rw [hl]
  apply String.ext
  simp [replaceEscapes, escapeAt, digitValue, String.length]

theorem separatorRule_eq (height : ℤ) (color : String) :
    separatorRule height color =
      "QMenu::separator \x7b height: " ++ number height ++ "px; background: " ++
        number height ++ "; \x7d" := by
  unfold separatorRule
  rw [arg_separator_template]
  apply arg_no_percent
  intro c hc
  simp only [String.data_append, List.mem_append] at hc
  rcases hc with (((hc | hc) | hc) | hc) | hc
  · revert c
    decide
  · exact number_no_percent height c hc
  · revert c
    decide
  · exact number_no_percent height c hc
  · revert c
    decide

theorem roundHalfEven_err (t : ℚ) :
    -(1 / 2) ≤ (roundHalfEven t : ℚ) - t ∧ (roundHalfEven t : ℚ) - t ≤ 1 / 2 := by
  have h1 := Int.floor_le t
  have h2 := Int.lt_floor_add_one t
  unfold roundHalfEven
  split_ifs <;> push_cast <;> constructor <;> linarith

/-- Rounding to a double changes a positive value by at most one part in two
    to the 53. -/
theorem fl_rel_err (x : ℚ) (h : 0 < x) :
    (1 - 1 / 2 ^ 53) * x ≤ fl x ∧ fl x ≤ (1 + 1 / 2 ^ 53) * x := by
  have hU : (0 : ℚ) < 2 ^ (Int.log 2 x - 52) := two_zpow_pos _
  have hlog : (2 : ℚ) ^ Int.log 2 x ≤ x := by
    have := Int.zpow_log_le_self (b := 2) (by norm_num) h
    exact_mod_cast this
  have hUx : (2 : ℚ) ^ (Int.log 2 x - 52) ≤ x / 2 ^ 52 := by
    rw [zpow_sub₀ (by norm_num : (2 : ℚ) ≠ 0)]
    have : (2 : ℚ) ^ (52 : ℤ) = 2 ^ 52 := by norm_num
    rw [this]
    exact div_le_div_of_nonneg_right hlog (by norm_num)
  obtain ⟨e1, e2⟩ := roundHalfEven_err (x / 2 ^ (Int.log 2 x - 52))
  rw [fl_of_pos x h]
  generalize (roundHalfEven (x / 2 ^ (Int.log 2 x - 52)) : ℚ) = r at e1 e2
  generalize (2 : ℚ) ^ (Int.log 2 x - 52) = U at hU hUx e1 e2
  have e3 : (r - x / U) * U = r * U - x := by field_simp
  have e4 : -(1 / 2) * U ≤ (r - x / U) * U := mul_le_mul_of_nonneg_right e1 hU.le
  have e5 : (r - x / U) * U ≤ 1 / 2 * U := mul_le_mul_of_nonneg_right e2 hU.le
  rw [e3] at e4 e5
  constructor <;> linarith

/-- Bounds by values with `j` binary fraction digits survive rounding, below
    two to the `53 - j`. -/
theorem fl_dyadic_bounds (x : ℚ) (h : 0 < x) (j : ℕ) (hx : x < 2 ^ (53 - (j : ℤ))) (n : ℤ) :
    ((n : ℚ) / 2 ^ j ≤ x → (n : ℚ) / 2 ^ j ≤ fl x) ∧
      (x ≤ (n : ℚ) / 2 ^ j → fl x ≤ (n : ℚ) / 2 ^ j) := by
  have hlog := log_lt_of_lt x h _ hx
  obtain ⟨k, hk⟩ : ∃ k : ℕ, (k : ℤ) = 52 - (j : ℤ) - Int.log 2 x :=
    ⟨(52 - (j : ℤ) - Int.log 2 x).toNat, by omega⟩
  have hulp : (2 : ℚ) ^ (Int.log 2 x - 52) = 1 / 2 ^ (k + j) := by
    have : Int.log 2 x - 52 = -((k + j : ℕ) : ℤ) := by push_cast; omega
    rw [this, zpow_neg, zpow_natCast, one_div]
  have hpj : (0 : ℚ) < 2 ^ j := pow_pos (by norm_num) j
  have hpk : (0 : ℚ) < 2 ^ k := pow_pos (by norm_num) k
  have hpkj : (0 : ℚ) < 2 ^ (k + j) := pow_pos (by norm_num) _
  have hsplit : (2 : ℚ) ^ (k + j) = 2 ^ k * 2 ^ j := pow_add 2 k j
  rw [fl_of_pos x h, hulp]
  have hdiv : x / (1 / 2 ^ (k + j)) = x * 2 ^ (k + j) := by field_simp
  rw [hdiv]
  have hn : ((n * 2 ^ k : ℤ) : ℚ) = (n : ℚ) / 2 ^ j * 2 ^ (k + j) := by
    push_cast
    rw [hsplit]
    field_simp
    ring
  constructor
  · intro hle
    have h1 : ((n * 2 ^ k : ℤ) : ℚ) ≤ x * 2 ^ (k + j) := by
      rw [hn]
      exact mul_le_mul_of_nonneg_right hle hpkj.le
    have h2 := le_roundHalfEven _ _ h1
    have h3 : ((n * 2 ^ k : ℤ) : ℚ) ≤ (roundHalfEven (x * 2 ^ (k + j)) : ℚ) := by
      exact_mod_cast h2
    rw [hn] at h3
    rw [mul_one_div, le_div_iff₀ hpkj]
    exact h3
  · intro hle
    have h1 : x * 2 ^ (k + j) ≤ ((n * 2 ^ k : ℤ) : ℚ) := by
      rw [hn]
      exact mul_le_mul_of_nonneg_right hle hpkj.le
    have h2 := roundHalfEven_le _ _ h1
    have h3 : (roundHalfEven (x * 2 ^ (k + j)) : ℚ) ≤ ((n * 2 ^ k : ℤ) : ℚ) := by
      exact_mod_cast h2
    rw [hn] at h3
    rw [mul_one_div, div_le_iff₀ hpkj]
    exact h3


/-- Away from exact ties the two roundings on the way do not change the scaled
    dimension: it is `c * d / 96` rounded half up. -/
theorem scaled_non_tie (c d : ℤ) (hc : 0 ≤ c) (hd0 : 0 < d)
    (hfit : ((c : ℚ) * d) / 96 + 1 / 2 < 2147483648)
    (hnt : ¬ ∃ k : ℤ, ((c : ℚ) * d) / 96 = k + 1 / 2) :
    scaled c (m_scaleFactor d) = some ⌊((c : ℚ) * d) / 96 + 1 / 2⌋ := by
  rcases hc.lt_or_eq with hcpos | hc0
  swap
  · subst hc0
    unfold scaled
    rw [qRound_fl_exact (((0 : ℤ) : ℚ) * m_scaleFactor d) (by simp) 0 0 (by omega)
      (by simp) (by norm_num)]
    simp
  · have hcq : (0 : ℚ) < c := by exact_mod_cast hcpos
    have hdq : (0 : ℚ) < d := by exact_mod_cast hd0
    have ha : (0 : ℚ) < (d : ℚ) / 96 := by positivity
    obtain ⟨s1, s2⟩ := fl_rel_err ((d : ℚ) / 96) ha
    have hs : m_scaleFactor d = fl ((d : ℚ) / 96) := rfl
    have hspos : 0 < fl ((d : ℚ) / 96) :=
      lt_of_lt_of_le (mul_pos (by norm_num) ha) s1
    have hcs : 0 < (c : ℚ) * fl ((d : ℚ) / 96) := mul_pos hcq hspos
    obtain ⟨p1, p2⟩ := fl_rel_err _ hcs
    have hx0 : 0 ≤ ((c : ℚ) * d) / 96 := by positivity
    have c1 : (1 - 1 / 2 ^ 53) * (((c : ℚ) * d) / 96) ≤ (c : ℚ) * fl ((d : ℚ) / 96) := by
      have := mul_le_mul_of_nonneg_left s1 hcq.le
      calc (1 - 1 / 2 ^ 53) * (((c : ℚ) * d) / 96)
          = (c : ℚ) * ((1 - 1 / 2 ^ 53) * ((d : ℚ) / 96)) := by ring
        _ ≤ _ := this
    have c2 : (c : ℚ) * fl ((d : ℚ) / 96) ≤ (1 + 1 / 2 ^ 53) * (((c : ℚ) * d) / 96) := by
      have := mul_le_mul_of_nonneg_left s2 hcq.le
      calc (c : ℚ) * fl ((d : ℚ) / 96)
          ≤ (c : ℚ) * ((1 + 1 / 2 ^ 53) * ((d : ℚ) / 96)) := this
        _ = _ := by ring
    have hp0 : 0 ≤ fl ((c : ℚ) * fl ((d : ℚ) / 96)) := fl_nonneg _ hcs.le
    generalize hp : fl ((c : ℚ) * fl ((d : ℚ) / 96)) = p at p1 p2 hp0
    generalize (c : ℚ) * fl ((d : ℚ) / 96) = cs at p1 p2 c1 c2 hcs
    have hplo : ((c : ℚ) * d) / 96 - 1 / 2 ^ 20 ≤ p := by
      norm_num at p1 p2 c1 c2 hfit ⊢
      linarith
    have hphi : p ≤ ((c : ℚ) * d) / 96 + 1 / 2 ^ 20 := by
      norm_num at p1 p2 c1 c2 hfit ⊢
      linarith
    -- the exact value between two integers
    have hN : 0 ≤ c * d := mul_nonneg hc hd0.le
    have hdiv := Int.ediv_add_emod (c * d + 48) 96
    have hr0 := Int.emod_nonneg (c * d + 48) (by norm_num : (96 : ℤ) ≠ 0)
    have hr1 := Int.emod_lt_of_pos (c * d + 48) (by norm_num : (0 : ℤ) < 96)
    have hk0 : 0 ≤ (c * d + 48) / 96 := Int.ediv_nonneg (by omega) (by norm_num)
    generalize (c * d + 48) / 96 = k at hdiv hk0
    generalize (c * d + 48) % 96 = r at hdiv hr0 hr1
    have hxq : ((c : ℚ) * d) / 96 + 1 / 2 = k + (r : ℚ) / 96 := by
      have : ((c * d + 48 : ℤ) : ℚ) = ((96 * k + r : ℤ) : ℚ) := by rw [hdiv]
      push_cast at this
      field_simp
      linarith
    have hrne : r ≠ 0 := by
      intro hr
      apply hnt
      refine ⟨k - 1, ?_⟩
      rw [hr] at hxq
      push_cast
      push_cast at hxq
      linarith
    have hrq1 : (1 : ℚ) ≤ r := by
      have : 1 ≤ r := by omega
      exact_mod_cast this
    have hrq2 : (r : ℚ) ≤ 95 := by
      have : r ≤ 95 := by omega
      exact_mod_cast this
    have hkq0 : (0 : ℚ) ≤ k := by exact_mod_cast hk0
    have hk31 : (k : ℚ) + 1 ≤ 2147483648 := by
      have h1 : (k : ℚ) < 2147483648 := by linarith
      have h2 : k < 2147483648 := by exact_mod_cast h1
      have h3 : k + 1 ≤ 2147483648 := by omega
      exact_mod_cast h3
    have hfloor : ⌊((c : ℚ) * d) / 96 + 1 / 2⌋ = k := by
      rw [hxq]
      exact Int.floor_eq_iff.mpr ⟨by linarith, by linarith⟩
    have hy0 : 0 < p + 1 / 2 := by linarith
    have hylo : (k : ℚ) ≤ p + 1 / 2 := by
      norm_num at hplo ⊢
      linarith
    have hyhi : p + 1 / 2 ≤ (k : ℚ) + 1 - 1 / 2 ^ 10 := by
      norm_num at hphi ⊢
      linarith
    have hy := fl_dyadic_bounds (p + 1 / 2) hy0 10
      (lt_of_le_of_lt hyhi (lt_of_le_of_lt (by linarith : (k : ℚ) + 1 - 1 / 2 ^ 10 ≤ 2147483648)
        (by norm_num)))
    have hfl_lo : (k : ℚ) ≤ fl (p + 1 / 2) := by
      have := (hy (k * 2 ^ 10)).1 (by push_cast; norm_num; linarith)
      push_cast at this
      norm_num at this
      linarith
    have hfl_hi : fl (p + 1 / 2) ≤ (k : ℚ) + 1 - 1 / 2 ^ 10 := by
      have := (hy ((k + 1) * 2 ^ 10 - 1)).2 (by push_cast; norm_num at hyhi ⊢; linarith)
      push_cast at this
      norm_num at this ⊢
      linarith
    unfold scaled
    rw [hs, hp, qRound_of_nonneg p hp0,
      toInt32_of_nonneg _ (le_trans hkq0 hfl_lo) (by norm_num at hfl_hi ⊢; linarith), hfloor]
    congr 1
    exact Int.floor_eq_iff.mpr ⟨hfl_lo, by norm_num at hfl_hi ⊢; linarith⟩

theorem roundHalfEven_near (t : ℚ) (z : ℤ) (h1 : (z : ℚ) - 1 / 2 < t)
    (h2 : t < (z : ℚ) + 1 / 2) : roundHalfEven t = z := by
  rcases le_or_lt (z : ℚ) t with h | h
  · have hf : ⌊t⌋ = z := Int.floor_eq_iff.mpr ⟨h, by linarith⟩
    unfold roundHalfEven
    rw [hf, if_pos (by linarith)]
  · have hf : ⌊t⌋ = z - 1 := Int.floor_eq_iff.mpr ⟨by push_cast; linarith, by push_cast; linarith⟩
    unfold roundHalfEven
    rw [hf, if_neg (by push_cast; linarith), if_pos (by push_cast; linarith)]
    omega

theorem fl_eval_near (x : ℚ) (e z : ℤ) (h0 : 0 < x) (hlo : 2 ^ e ≤ x) (hhi : x < 2 ^ (e + 1))
    (h1 : (z : ℚ) - 1 / 2 < x / 2 ^ (e - 52)) (h2 : x / 2 ^ (e - 52) < (z : ℚ) + 1 / 2) :
    fl x = z * 2 ^ (e - 52) := by
  have hlog : Int.log 2 x = e := by
    have a : e ≤ Int.log 2 x :=
      (Int.zpow_le_iff_le_log (by norm_num) h0).mp (by exact_mod_cast hlo)
    have b : Int.log 2 x < e + 1 := log_lt_of_lt x h0 _ hhi
    omega
  rw [fl_of_pos x h0, hlog, roundHalfEven_near _ z h1 h2]

theorem scaled_eq_qRound (c : ℤ) (s : ℚ) : scaled c s = qRound (fl (c * s)) := rfl

theorem qRound_width_at_five_quarters : qRound (fl (1366 * (5 / 4))) = some 1708 := by
  rw [qRound_fl_exact (1366 * (5 / 4)) (by norm_num) 3415 1 (by norm_num) (by norm_num)
    (by norm_num)]
  congr 1
  exact Int.floor_eq_iff.mpr ⟨by norm_num, by norm_num⟩

theorem qRound_height_at_five_quarters : qRound (fl (844 * (5 / 4))) = some 1055 := by
  rw [qRound_fl_exact (844 * (5 / 4)) (by norm_num) 1055 0 (by norm_num) (by norm_num)
    (by norm_num)]
  congr 1
  exact Int.floor_eq_iff.mpr ⟨by norm_num, by norm_num⟩

theorem qRound_tall_of_1055 :
    qRound (fl (((1055 : ℤ) : ℚ) * fl (107 / 100))) = some 1129 := by
  have hf : fl (107 / 100) = (4818851601286431 : ℤ) * 2 ^ ((0 : ℤ) - 52) :=
    fl_eval_near _ 0 _ (by norm_num) (by norm_num) (by norm_num) (by norm_num) (by norm_num)
  have hp : fl (((1055 : ℤ) : ℚ) * fl (107 / 100)) =
      (4964734804059751 : ℤ) * 2 ^ ((10 : ℤ) - 52) := by
    rw [hf]
    exact fl_eval_near _ 10 _ (by norm_num) (by norm_num) (by norm_num) (by norm_num)
      (by norm_num)
  have hy : fl ((4964734804059751 : ℤ) * 2 ^ ((10 : ℤ) - 52) + 1 / 2) =
      (4964734804059751 : ℤ) * 2 ^ ((10 : ℤ) - 52) + 1 / 2 :=
    fl_exact _ (by norm_num) 4966933827315303 42 (by norm_num) (by norm_num)
  rw [hp, qRound_of_nonneg _ (by norm_num), hy, toInt32_of_nonneg _ (by norm_num) (by norm_num)]
  congr 1
  exact Int.floor_eq_iff.mpr ⟨by norm_num, by norm_num⟩

/-- Whenever `init` chooses a minimum size for a scale factor `s ≥ 0`, the
    choice follows the two comparisons and fits a non-null screen; it does
    choose one for every `s` up to 1000000. -/
theorem init_choice (s : ℚ) (hs : 0 ≤ s) (sw sh : ℤ) :
    (s ≤ 1000000 → ∃ outcome, init s (sw, sh) = some outcome) ∧
    ∀ outcome, init s (sw, sh) = some outcome →
      ∃ width height, scaled 1366 s = some width ∧ scaled 844 s = some height ∧
        ((sw, sh) ≠ (0, 0) → outcome.minimumSize.1 ≤ sw ∧ outcome.minimumSize.2 ≤ sh) ∧
        ((sw, sh) ≠ (0, 0) →
          (sw < width ∨ ∃ tall, qRound (fl (height * heightFactor)) = some tall ∧ sh < tall) →
          outcome.minimumSize = (sw, sh) ∧ outcome.window.maximized = true) ∧
        ((sw, sh) ≠ (0, 0) →
          ¬ (sw < width ∨ ∃ tall, qRound (fl (height * heightFactor)) = some tall ∧ sh < tall) →
          outcome.minimumSize = (width, height) ∧ outcome.window.maximized = false) ∧
        ((sw, sh) = (0, 0) →
          outcome.minimumSize = (width, height) ∧ outcome.window.maximized = false) := by
  constructor
  · intro hs1
    obtain ⟨_, _, _, outcome, _, _, _, h, _⟩ := init_of_bounded_scale s hs hs1 sw sh
    exact ⟨outcome, h⟩
  · intro outcome hout
    unfold init at hout
    cases hw : scaled 1366 s with
    | none => simp [hw] at hout
    | some width =>
      cases hh : scaled 844 s with
      | none => simp [hw, hh] at hout
      | some height =>
        obtain ⟨hh0, hh1⟩ := scaled_some_bounds 844 s height (by norm_num) hs hh
        refine ⟨width, height, rfl, rfl, ?_⟩
        simp only [hw, hh] at hout
        by_cases hnull : (sw, sh) = (0, 0)
        · rw [if_pos hnull] at hout
          cases hout
          exact ⟨fun h => absurd hnull h, fun h => absurd hnull h,
            fun h => absurd hnull h, fun _ => ⟨rfl, rfl⟩⟩
        · rw [if_neg hnull] at hout
          by_cases h1 : sw < width
          · rw [if_pos h1] at hout
            cases hout
            exact ⟨fun _ => ⟨le_refl _, le_refl _⟩, fun _ _ => ⟨rfl, rfl⟩,
              fun _ h => absurd (Or.inl h1) h, fun h => absurd h hnull⟩
          · rw [if_neg h1] at hout
            cases ht : qRound (fl (height * heightFactor)) with
            | none => simp [ht] at hout
            | some tall =>
              have hge := tall_some_ge height tall hh0 hh1 ht
              simp only [ht] at hout
              by_cases h2 : sh < tall
              · rw [if_pos h2] at hout
                cases hout
                exact ⟨fun _ => ⟨le_refl _, le_refl _⟩, fun _ _ => ⟨rfl, rfl⟩,
                  fun _ h => absurd (Or.inr ⟨tall, rfl, h2⟩) h, fun h => absurd h hnull⟩
              · rw [if_neg h2] at hout
                cases hout
                refine ⟨fun _ => ⟨?_, ?_⟩, ?_, fun _ _ => ⟨rfl, rfl⟩,
                  fun h => absurd h hnull⟩
                · show width ≤ sw
                  omega
                · show height ≤ sh
                  omega
                · intro _ h
                  rcases h with h | ⟨t, ht2, h⟩
                  · exact absurd h h1
                  · cases ht2
                    exact absurd h h2

/-! ## Claims -/

/-- C7: a text fully matches the opacity validator pattern
    `^([1-9][0-9]{0,1}|100)$` if and only if it is the canonical decimal
    representation (digits only, no leading zero) of an integer `n` with
    `1 ≤ n ≤ 100`. -/
theorem opacity_validator_language (s : String) :
    opacityPattern.exactMatch s = true ↔
      ∃ n : Nat, 1 ≤ n ∧ n ≤ 100 ∧ IsCanonicalDecimal s n := by
  rw [exactMatch_iff_allowed]
  constructor
  · intro h
    obtain ⟨h1, h2, h3⟩ := allowedTexts_canonical s h
    exact ⟨_, h1, h2, h3⟩
  · rintro ⟨n, h1, h2, h3⟩
    exact canonical_allowed s n h1 h2 h3

/-- C1 (as stated, refuted): clearing the opacity line edit is a text the
    validator lets the user enter (it is `Intermediate`), and after that single
    `textChanged` event the slider is at 0 while the line edit is empty, which
    is not the decimal representation of 0. -/
theorem opacity_sync_fails_on_cleared_text :
    (UserChange.textChanged "").Allowed ∧
      ∃ st, userChanges 3 [UserChange.textChanged ""] Opacity.initial = some st ∧
        st.sliderValue = 0 ∧ st.text = "" ∧ st.text ≠ number st.sliderValue := by
  refine ⟨?_, _, rfl, ?_⟩
  · show validate opacityPattern "" ≠ ValidatorState.Invalid
    decide
  · decide

/-- C1 (amended): in every state reached from the initial one by allowed
    slider `valueChanged` and line-edit `textChanged` events, every event is
    handled to completion and the line edit shows the decimal representation
    of the slider value, or the line edit is empty and the slider is at 0. -/
theorem opacity_sync_invariant (fuel : Nat) (es : List UserChange)
    (hes : ∀ e ∈ es, e.Allowed) :
    ∃ st, userChanges (fuel + 3) es Opacity.initial = some st ∧
      (st.text = number st.sliderValue ∨ (st.text = "" ∧ st.sliderValue = 0)) := by
  obtain ⟨st, h, hs⟩ := synced_run fuel es hes Opacity.initial ⟨rfl, rfl, Or.inl rfl⟩
  exact ⟨st, h, hs.2.2⟩

/-- Witness for C1 (amended): the invariant at a concrete event sequence that
    moves the slider to 0, types `50` and then clears the line edit. -/
theorem opacity_sync_invariant_witness :
    (∀ e ∈ [UserChange.valueChanged 0, UserChange.textChanged "50",
        UserChange.textChanged ""], e.Allowed) ∧
      ∃ st, userChanges (0 + 3) [UserChange.valueChanged 0, UserChange.textChanged "50",
          UserChange.textChanged ""] Opacity.initial = some st ∧
        (st.text = number st.sliderValue ∨ (st.text = "" ∧ st.sliderValue = 0)) :=
  have h : ∀ e ∈ [UserChange.valueChanged 0, UserChange.textChanged "50",
      UserChange.textChanged ""], e.Allowed := by
    intro e he
    simp only [List.mem_cons, List.mem_singleton, List.not_mem_nil, or_false] at he
    rcases he with rfl | rfl | rfl
    · exact ⟨by decide, by decide⟩
    · show validate opacityPattern "50" ≠ ValidatorState.Invalid
      decide
    · show validate opacityPattern "" ≠ ValidatorState.Invalid
      decide
  ⟨h, opacity_sync_invariant 0 _ h⟩

/-- C6: the `valueChanged` handler, run in any state, makes exactly one
    `setText` call and runs no `textChanged` handler; the `textChanged`
    handler makes exactly one `setValue` call and runs no `valueChanged`
    handler; both restore the blocking flags; and any single user change is
    handled to completion with at most one handler run. -/
theorem handlers_do_not_cascade :
    (∀ (fuel : Nat) (st : Opacity) (v : Int),
      exec (fuel + 2) (Op.onValueChanged v) st =
        some { st with
          text := number v
          log := st.log ++ [Call.ranValueChanged v, Call.calledSetText (number v)] }) ∧
    (∀ (fuel : Nat) (st : Opacity) (t : String),
      exec (fuel + 2) (Op.onTextChanged t) st =
        some { st with
          sliderValue := qBound 0 (toInt t) SLIDER_MAX_VALUE
          log := st.log ++ [Call.ranTextChanged t, Call.calledSetValue (toInt t)] }) ∧
    (∀ (fuel : Nat) (e : UserChange) (st : Opacity),
      ∃ st1 ext, exec (fuel + 3) e.op st = some st1 ∧ st1.log = st.log ++ ext ∧
        handlerRuns ext ≤ 1 ∧
        st1.sliderBlocked = st.sliderBlocked ∧ st1.lineEditBlocked = st.lineEditBlocked) := by
  refine ⟨exec_onValueChanged, exec_onTextChanged, ?_⟩
  intro fuel e st
  cases e with
  | valueChanged v =>
    show ∃ st1 ext, exec (fuel + 3) (Op.sliderSetValue v) st = some st1 ∧ _
    rw [exec_sliderSetValue]
    split_ifs
    · exact ⟨st, [], rfl, by simp, by decide, rfl, rfl⟩
    · exact ⟨_, [], rfl, by simp, by decide, rfl, rfl⟩
    · rw [exec_onValueChanged]
      exact ⟨_, _, rfl, rfl, le_refl 1, rfl, rfl⟩
  | textChanged t =>
    show ∃ st1 ext, exec (fuel + 3) (Op.lineEditSetText t) st = some st1 ∧ _
    rw [exec_lineEditSetText]
    split_ifs
    · exact ⟨st, [], rfl, by simp, by decide, rfl, rfl⟩
    · exact ⟨_, [], rfl, by simp, by decide, rfl, rfl⟩
    · rw [exec_onTextChanged]
      exact ⟨_, _, rfl, rfl, le_refl 1, rfl, rfl⟩

/-- C8: for every text `t` that fully matches the opacity validator pattern,
    the `textChanged` handler sets the slider to `toInt t` itself (the value
    lies in `0..SLIDER_MAX_VALUE`, so bounding changes nothing), and
    `number (toInt t) = t`. -/
theorem text_to_slider_round_trip (t : String)
    (ht : opacityPattern.exactMatch t = true) :
    (∀ (fuel : Nat) (st : Opacity),
      exec (fuel + 2) (Op.onTextChanged t) st =
        some { st with
          sliderValue := toInt t
          log := st.log ++ [Call.ranTextChanged t, Call.calledSetValue (toInt t)] }) ∧
    0 ≤ toInt t ∧ toInt t ≤ SLIDER_MAX_VALUE ∧ number (toInt t) = t := by
  obtain ⟨r1, r2, r3⟩ := allowedTexts_roundTrip t ((exactMatch_iff_allowed t).mp ht)
  have r2b : toInt t ≤ SLIDER_MAX_VALUE := r2
  refine ⟨?_, by omega, r2b, r3⟩
  intro fuel st
  rw [exec_onTextChanged, qBound_of_mem _ _ (by omega) r2b]

/-- Witness for C8 at the text `"42"`. -/
theorem text_to_slider_round_trip_witness :
    opacityPattern.exactMatch "42" = true ∧
      ((∀ (fuel : Nat) (st : Opacity),
        exec (fuel + 2) (Op.onTextChanged "42") st =
          some { st with
            sliderValue := toInt "42"
            log := st.log ++ [Call.ranTextChanged "42", Call.calledSetValue (toInt "42")] }) ∧
      0 ≤ toInt "42" ∧ toInt "42" ≤ SLIDER_MAX_VALUE ∧ number (toInt "42") = "42") :=
  ⟨by decide, text_to_slider_round_trip "42" (by decide)⟩

/-- C2: after any sequence of clicks on the six draw-tool buttons, starting
    from construction, every click is handled to completion and exactly one
    button is checked: the pencil button when nothing was clicked, otherwise
    the button clicked last (which the group also records). Moreover the
    `buttonToggled` handler, called with a button and that button's checked
    state, leaves every state unchanged. -/
theorem draw_tool_exclusive (fuel : Nat) (bs : List DrawTool) :
    (∃ st, clicks (fuel + 3) bs DrawTools.initial = some st ∧
      (∀ t, st.checked t = true ↔ t = lastClicked DrawTool.PencilDrawTool bs) ∧
      (∃! t, st.checked t = true) ∧
      st.checkedButton = some (lastClicked DrawTool.PencilDrawTool bs)) ∧
    (∀ (st : DrawTools) (b : DrawTool),
      onButtonToggled (fuel + 1) b (st.checked b) st = some st) := by
  refine ⟨?_, fun st b => setChecked_same fuel b st⟩
  obtain ⟨st, h, h1, h2⟩ :=
    clicks_onlyChecked fuel bs DrawTool.PencilDrawTool DrawTools.initial ⟨rfl, rfl⟩
  have hc : ∀ t, st.checked t = true ↔ t = lastClicked DrawTool.PencilDrawTool bs := by
    intro t
    rw [h1]
    simp
  refine ⟨st, h, hc, ⟨lastClicked DrawTool.PencilDrawTool bs, (hc _).mpr rfl, ?_⟩, h2⟩
  intro t ht
  exact (hc t).mp ht

/-- C3: `loadPhoto` returns `false` exactly when the reader yields a null
    image; in that case the stored photo, the label's pixmap and the scroll
    area's visibility are unchanged and exactly one message box, titled with
    the application name and reading `Cannot load <path>: <error>`, is added. -/
theorem loadPhoto_failure_atomic (tk : Toolkit) (filePath : String) (st : PhotoView) :
    ((loadPhoto tk filePath st).1 = false ↔ (tk.read filePath).isNull = true) ∧
    ((tk.read filePath).isNull = true →
      (loadPhoto tk filePath st).2.m_photo = st.m_photo ∧
      (loadPhoto tk filePath st).2.labelPixmap = st.labelPixmap ∧
      (loadPhoto tk filePath st).2.scrollAreaVisible = st.scrollAreaVisible ∧
      (loadPhoto tk filePath st).2.messageBoxes = st.messageBoxes ++
        [{ title := tk.applicationDisplayName
           text := "Cannot load " ++ tk.toNativeSeparators filePath ++ ": " ++
             tk.errorString filePath }]) := by
  unfold loadPhoto
  by_cases h : (tk.read filePath).isNull = true
  · simp [h, cannotLoadText]
  · simp [h]

/-- Witness for C3: a failing load of `a.png` over a view that already shows a
    photo. -/
theorem loadPhoto_failure_atomic_witness :
    (failingToolkit.read "a.png").isNull = true ∧
      (loadPhoto failingToolkit "a.png" samplePhotoView).1 = false ∧
      (loadPhoto failingToolkit "a.png" samplePhotoView).2.m_photo = samplePhotoView.m_photo ∧
      (loadPhoto failingToolkit "a.png" samplePhotoView).2.messageBoxes =
        [{ title := "PhotoEditor", text := "Cannot load a.png: no such file" }] :=
  have h := loadPhoto_failure_atomic failingToolkit "a.png" samplePhotoView
  ⟨rfl, h.1.mpr rfl, (h.2 rfl).1, (h.2 rfl).2.2.2.trans (by decide)⟩

/-- C4: when the reader yields a non-null image, `loadPhoto` returns `true`
    and stores that image converted to sRGB if its colour space is valid, and
    the image itself otherwise; so the stored photo is in sRGB or has no valid
    colour space. -/
theorem loadPhoto_normalises_colour_space (tk : Toolkit) (filePath : String)
    (st : PhotoView) (d : ImageData) (h : tk.read filePath = some d) :
    (loadPhoto tk filePath st).1 = true ∧
    (loadPhoto tk filePath st).2.m_photo =
      (if d.colorSpace.isSome then convertToColorSpace tk ColorSpace.SRgb (some d)
       else some d) ∧
    (∀ source, d.colorSpace = some source →
      (loadPhoto tk filePath st).2.m_photo =
        some { colorSpace := some ColorSpace.SRgb
               pixels := tk.colorTransform source ColorSpace.SRgb d.pixels }) ∧
    ((loadPhoto tk filePath st).2.m_photo.colorSpace = some ColorSpace.SRgb ∨
      (loadPhoto tk filePath st).2.m_photo.colorSpace = none) := by
  unfold loadPhoto
  rw [h]
  cases hcs : d.colorSpace with
  | none => simp [Image.isNull, Image.colorSpace, hcs]
  | some cs => simp [Image.isNull, Image.colorSpace, hcs, convertToColorSpace]

/-- Witness for C4: loading an Adobe RGB image stores it converted to sRGB. -/
theorem loadPhoto_normalises_colour_space_witness :
    adobeToolkit.read "a.png" = some { colorSpace := some ColorSpace.AdobeRgb, pixels := [7] } ∧
      (loadPhoto adobeToolkit "a.png" samplePhotoView).1 = true ∧
      (loadPhoto adobeToolkit "a.png" samplePhotoView).2.m_photo =
        some { colorSpace := some ColorSpace.SRgb, pixels := [8] } :=
  have h := loadPhoto_normalises_colour_space adobeToolkit "a.png" samplePhotoView
    { colorSpace := some ColorSpace.AdobeRgb, pixels := [7] } rfl
  ⟨rfl, h.1, h.2.2.1 ColorSpace.AdobeRgb rfl⟩

/-- C5 (as stated, refuted): after ten colour selections the combo-box holds
    ten items, and an eleventh selection leaves it at ten items instead of
    adding one. -/
theorem colour_history_full_counterexample :
    (colorSelections 32 (List.replicate 10 ⟨255, 0, 0, 255⟩)).count = 10 ∧
      (onColorSelected 32 ⟨0, 0, 255, 255⟩
        (colorSelections 32 (List.replicate 10 ⟨255, 0, 0, 255⟩))).count ≠
      (colorSelections 32 (List.replicate 10 ⟨255, 0, 0, 255⟩)).count + 1 := by
  decide

/-- C5 (amended): in every state of the combo-box reached by colour
    selections, while it holds fewer than 10 items (its `maxCount`) a further
    selection appends exactly one item, the swatch of the selected colour, as
    the last item and makes it the current item; once it holds 10 items a
    selection adds no item. -/
theorem colour_history_feed (iconSize : Int) (cs : List Color) (c : Color) :
    ((colorSelections iconSize cs).items.length < 10 →
      (onColorSelected iconSize c (colorSelections iconSize cs)).items =
        (colorSelections iconSize cs).items ++ [swatchOf iconSize c] ∧
      (onColorSelected iconSize c (colorSelections iconSize cs)).count =
        (colorSelections iconSize cs).count + 1 ∧
      (onColorSelected iconSize c (colorSelections iconSize cs)).currentIndex =
        (colorSelections iconSize cs).count ∧
      (onColorSelected iconSize c (colorSelections iconSize cs)).items.get?
          (onColorSelected iconSize c (colorSelections iconSize cs)).currentIndex.toNat =
        some (swatchOf iconSize c)) ∧
    (10 ≤ (colorSelections iconSize cs).items.length →
      (onColorSelected iconSize c (colorSelections iconSize cs)).items =
        (colorSelections iconSize cs).items) := by
  have hmax := colorSelections_maxCount iconSize cs
  constructor
  · intro h
    obtain ⟨h1, h2⟩ := onColorSelected_room iconSize c (colorSelections iconSize cs)
      (by rw [hmax]; exact h)
    refine ⟨h1, ?_, h2, ?_⟩
    · unfold ComboBox.count
      rw [h1]
      simp
    · rw [h1, h2]
      simp
  · intro h
    exact onColorSelected_full iconSize c _ (by rw [hmax]; exact h)

/-- Witness for C5 (amended): selecting blue after two selections of red. -/
theorem colour_history_feed_witness :
    (colorSelections 32 [⟨255, 0, 0, 255⟩, ⟨255, 0, 0, 255⟩]).items.length < 10 ∧
      (onColorSelected 32 ⟨0, 0, 255, 255⟩
        (colorSelections 32 [⟨255, 0, 0, 255⟩, ⟨255, 0, 0, 255⟩])).items =
        (colorSelections 32 [⟨255, 0, 0, 255⟩, ⟨255, 0, 0, 255⟩]).items ++
          [swatchOf 32 ⟨0, 0, 255, 255⟩] ∧
      (onColorSelected 32 ⟨0, 0, 255, 255⟩
        (colorSelections 32 [⟨255, 0, 0, 255⟩, ⟨255, 0, 0, 255⟩])).currentIndex = 2 :=
  have h := (colour_history_feed 32 [⟨255, 0, 0, 255⟩, ⟨255, 0, 0, 255⟩]
    ⟨0, 0, 255, 255⟩).1 (by decide)
  ⟨by decide, h.1, h.2.2.1.trans (by decide)⟩

/-- C9: when the file dialog is accepted, `openFile` calls `loadPhoto` exactly
    once, with the first selected file, and its state is the one `loadPhoto`
    leaves; when the dialog is rejected, `loadPhoto` is not called and the
    stored photo, the label's pixmap and the scroll area's visibility are
    unchanged. -/
theorem openFile_loads_only_on_accept (tk : Toolkit) (st : PhotoView) :
    (∀ (file : String) (others : List String),
      openFile tk ⟨DialogCode.Accepted, file :: others⟩ st =
        some (loadPhoto tk file { st with initiaPhotoOpen := false }).2 ∧
      ∃ st1, openFile tk ⟨DialogCode.Accepted, file :: others⟩ st = some st1 ∧
        st1.loadPhotoCalls = st.loadPhotoCalls ++ [file]) ∧
    (∀ (files : List String),
      ∃ st1, openFile tk ⟨DialogCode.Rejected, files⟩ st = some st1 ∧
        st1.loadPhotoCalls = st.loadPhotoCalls ∧ st1.m_photo = st.m_photo ∧
        st1.labelPixmap = st.labelPixmap ∧ st1.scrollAreaVisible = st.scrollAreaVisible ∧
        st1.messageBoxes = st.messageBoxes) := by
  have hst : (if st.initiaPhotoOpen = true then { st with initiaPhotoOpen := false } else st) =
      { st with initiaPhotoOpen := false } := by
    cases h : st.initiaPhotoOpen
    · obtain ⟨a, b, c, d, e, f⟩ := st
      simp only at h
      subst h
      rfl
    · rfl
  constructor
  · intro file others
    have e : openFile tk ⟨DialogCode.Accepted, file :: others⟩ st =
        some (loadPhoto tk file { st with initiaPhotoOpen := false }).2 := by
      unfold openFile
      rw [hst]
      rfl
    exact ⟨e, _, e, loadPhoto_calls tk file _⟩
  · intro files
    refine ⟨{ st with initiaPhotoOpen := false }, ?_, rfl, rfl, rfl, rfl, rfl⟩
    unfold openFile
    rw [hst]
    rfl

/-- C10: the `clicked` signal of the undo, redo, reset and copy buttons and the
    `triggered` signal of the save, save-as and print actions have no handler
    in `createConnections`: delivering any of them leaves the whole window
    state, and so the stored photo, the displayed pixmap, the opacity slider
    and text, the checked draw tool and the colour history, unchanged. -/
theorem unconnected_signals_change_nothing (fuel : Nat) (env : Answers) (app : App) :
    deliver fuel env (Signal.clicked Button.undoButton) app = some app ∧
    deliver fuel env (Signal.clicked Button.redoButton) app = some app ∧
    deliver fuel env (Signal.clicked Button.resetButton) app = some app ∧
    deliver fuel env (Signal.clicked Button.copyButton) app = some app ∧
    deliver fuel env (Signal.triggered Action.saveFileAction) app = some app ∧
    deliver fuel env (Signal.triggered Action.saveAsFileAction) app = some app ∧
    deliver fuel env (Signal.triggered Action.printAction) app = some app :=
  ⟨rfl, rfl, rfl, rfl, rfl, rfl, rfl⟩

/-- C11: after any sequence of `loadPhoto` calls, successful or failing, the
    label shows the pixmap made from the stored photo `m_photo` (no pixmap
    while the stored photo is still null), the stored photo being the converted
    one: in sRGB or without a valid colour space; and once a load has
    succeeded the scroll area is visible and the label holds a pixmap. -/
theorem displayed_photo_tracks_stored (visible : Bool) (loads : List (Toolkit × String)) :
    (loadPhotos loads (PhotoView.initial visible)).shownImage =
      (loadPhotos loads (PhotoView.initial visible)).m_photo ∧
    ((loadPhotos loads (PhotoView.initial visible)).m_photo.colorSpace =
        some ColorSpace.SRgb ∨
      (loadPhotos loads (PhotoView.initial visible)).m_photo.colorSpace = none) ∧
    ((∃ l ∈ loads, (l.1.read l.2).isNull = false) →
      (loadPhotos loads (PhotoView.initial visible)).scrollAreaVisible = true ∧
      (loadPhotos loads (PhotoView.initial visible)).labelPixmap =
        some (loadPhotos loads (PhotoView.initial visible)).m_photo) := by
  have h := loadPhotos_tracks loads (PhotoView.initial visible) ⟨rfl, Or.inr rfl⟩
  exact ⟨h.1, h.2, fun hs => loadPhotos_shown loads _ (Or.inr hs)⟩

/-- Witness for C11: a successful load of an Adobe RGB image followed by a
    failing load, starting with the scroll area hidden. -/
theorem displayed_photo_tracks_stored_witness :
    (∃ l ∈ [(adobeToolkit, "a.png"), (failingToolkit, "b.png")],
        (l.1.read l.2).isNull = false) ∧
      (loadPhotos [(adobeToolkit, "a.png"), (failingToolkit, "b.png")]
        (PhotoView.initial false)).scrollAreaVisible = true ∧
      (loadPhotos [(adobeToolkit, "a.png"), (failingToolkit, "b.png")]
        (PhotoView.initial false)).labelPixmap =
        some (some { colorSpace := some ColorSpace.SRgb, pixels := [8] }) :=
  have hs : ∃ l ∈ [(adobeToolkit, "a.png"), (failingToolkit, "b.png")],
      (l.1.read l.2).isNull = false :=
    ⟨(adobeToolkit, "a.png"), by simp, rfl⟩
  have h := (displayed_photo_tracks_stored false
    [(adobeToolkit, "a.png"), (failingToolkit, "b.png")]).2.2 hs
  ⟨hs, h.1, h.2.trans (by decide)⟩

/-- C13 (the code at the failing input): for the slider value 0, which lies in
    the slider's range, the `valueChanged` handler writes the text `0` into the
    line edit, and that text does not match the validator pattern: the
    validator rejects it. -/
theorem slider_zero_text_is_rejected :
    (0 : Int) ≤ 0 ∧ (0 : Int) ≤ SLIDER_MAX_VALUE ∧
    (∃ st, exec 2 (Op.onValueChanged 0) Opacity.initial = some st ∧ st.text = "0") ∧
    number 0 = "0" ∧
    opacityPattern.exactMatch (number 0) = false ∧
    validate opacityPattern (number 0) = ValidatorState.Invalid := by
  refine ⟨le_refl 0, by decide, ⟨_, rfl, rfl⟩, by decide, by decide, by decide⟩

/-- C15: after any sequence of colour selections the combo-box holds at most
    10 items, and a further selection keeps the items already present, in
    order, at the front of the list. -/
theorem colour_history_bounded (iconSize : Int) (cs : List Color) (c : Color) :
    (colorSelections iconSize cs).items.length ≤ 10 ∧
    (colorSelections iconSize cs).items <+:
      (onColorSelected iconSize c (colorSelections iconSize cs)).items := by
  refine ⟨colorSelections_length_le iconSize cs, ?_⟩
  have hmax := colorSelections_maxCount iconSize cs
  by_cases h : (colorSelections iconSize cs).items.length < 10
  · rw [(onColorSelected_room iconSize c _ (by rw [hmax]; exact h)).1]
    exact List.prefix_append _ _
  · rw [onColorSelected_full iconSize c _ (by rw [hmax]; omega)]

/-- C12 (as stated, refuted): at 98 DPI the constant 120 scales to 122, while
    `120 * 98 / 96 = 122.5` rounded half up is 123: the quotient `98 / 96.0`
    and the product are rounded to doubles on the way. -/
theorem scaled_dimension_not_exact_at_98_dpi :
    scaled 120 (m_scaleFactor 98) = some 122 ∧
      ⌊((120 : ℤ) * (98 : ℤ) : ℚ) / 96 + 1 / 2⌋ = 123 :=
  ⟨scaled_120_at_98, Int.floor_eq_iff.mpr ⟨by norm_num, by norm_num⟩⟩

/-- C12 (amended): at the reference DPI 96 the scale factor is exactly 1 and
    every non-negative `int` constant scales to itself; and for every DPI
    `d > 0` the scaled dimension is `c * d / 96` rounded half up, as long as
    that fits an `int`, unless `c * d / 96` lies exactly halfway between two
    integers while `d` is not a multiple of 3 (so that `d / 96` is not a
    double). -/
theorem scaled_dimension_exact :
    m_scaleFactor 96 = 1 ∧
    (∀ c : ℤ, 0 ≤ c → c ≤ 2147483647 → scaled c (m_scaleFactor 96) = some c) ∧
    (∀ c d : ℤ, 0 ≤ c → 0 < d → d ≤ 2147483647 →
      ((c : ℚ) * d) / 96 + 1 / 2 < 2147483648 →
      (3 ∣ d ∨ ¬ ∃ k : ℤ, ((c : ℚ) * d) / 96 = k + 1 / 2) →
      scaled c (m_scaleFactor d) = some ⌊((c : ℚ) * d) / 96 + 1 / 2⌋) := by
  refine ⟨m_scaleFactor_ref, ?_, ?_⟩
  · intro c h0 h1
    rw [m_scaleFactor_ref]
    exact scaled_one c h0 h1
  · intro c d h0 hd0 hd1 hb hcase
    rcases hcase with h3 | hnt
    · obtain ⟨t, ht⟩ := h3
      have hc0 : (0 : ℚ) ≤ c := by exact_mod_cast h0
      have ht0 : (0 : ℚ) ≤ t := by
        have : 0 ≤ t := by omega
        exact_mod_cast this
      have hx : (c : ℚ) * (t / 2 ^ 5) = ((c : ℚ) * d) / 96 := by
        rw [ht]
        push_cast
        field_simp
        ring
      rw [m_scaleFactor_of_three_dvd d t ht hd0 hd1]
      unfold scaled
      rw [qRound_fl_exact ((c : ℚ) * (t / 2 ^ 5)) (by positivity) (c * t) 5 (by omega)
        (by push_cast; ring) (by rw [hx]; exact hb), hx]
    · exact scaled_non_tie c d h0 hd0 hb hnt

/-- Witness for C12 (amended): the width 1366 stays 1366 at 96 DPI, becomes
    1708 at 120 DPI, where `1366 * 120 / 96 = 1707.5` is a tie and 120 a
    multiple of 3, and becomes 1423 at 100 DPI, where `1366 * 100 / 96` is no
    tie. -/
theorem scaled_dimension_exact_witness :
    scaled 1366 (m_scaleFactor 96) = some 1366 ∧
      scaled 1366 (m_scaleFactor 120) = some 1708 ∧
      scaled 1366 (m_scaleFactor 100) = some 1423 :=
  ⟨scaled_dimension_exact.2.1 1366 (by norm_num) (by norm_num),
    (scaled_dimension_exact.2.2 1366 120 (by norm_num) (by norm_num) (by norm_num)
      (by norm_num) (Or.inl (by norm_num))).trans
      (congrArg some (Int.floor_eq_iff.mpr ⟨by norm_num, by norm_num⟩)),
    (scaled_dimension_exact.2.2 1366 100 (by norm_num) (by norm_num) (by norm_num)
      (by norm_num) (Or.inr (by
        rintro ⟨k, hk⟩
        have h1 : ((136600 : ℤ) : ℚ) = ((96 * k + 48 : ℤ) : ℚ) := by
          push_cast
          push_cast at hk
          linarith
        have h2 : (136600 : ℤ) = 96 * k + 48 := by exact_mod_cast h1
        omega))).trans
      (congrArg some (Int.floor_eq_iff.mpr ⟨by norm_num, by norm_num⟩))⟩

/-- C14: for every scale factor `s ≥ 0` and every available size `(sw, sh)`,
    whenever `init` chooses a minimum size (it does for all `s` up to 1000000;
    beyond, a scaled size may not fit an `int`), the choice is: for a non-null
    geometry, `(sw, sh)` with the window maximised when `qRound(1366*s) > sw`
    or `qRound(qRound(844*s) * 1.07) > sh`, and the preferred size
    `(qRound(1366*s), qRound(844*s))` otherwise, in both cases componentwise at
    most `(sw, sh)`; for the null geometry, the preferred size. -/
theorem minimum_size_fits_screen (s : ℚ) (hs : 0 ≤ s) (sw sh : ℤ) :
    (s ≤ 1000000 → ∃ outcome, init s (sw, sh) = some outcome) ∧
    ∀ outcome, init s (sw, sh) = some outcome →
      ∃ width height, qRound (fl (1366 * s)) = some width ∧
        qRound (fl (844 * s)) = some height ∧
        ((sw, sh) ≠ (0, 0) → outcome.minimumSize.1 ≤ sw ∧ outcome.minimumSize.2 ≤ sh) ∧
        ((sw, sh) ≠ (0, 0) →
          (sw < width ∨
            ∃ tall, qRound (fl ((height : ℚ) * fl (107 / 100))) = some tall ∧ sh < tall) →
          outcome.minimumSize = (sw, sh) ∧ outcome.window.maximized = true) ∧
        ((sw, sh) ≠ (0, 0) →
          ¬ (sw < width ∨
            ∃ tall, qRound (fl ((height : ℚ) * fl (107 / 100))) = some tall ∧ sh < tall) →
          outcome.minimumSize = (width, height) ∧ outcome.window.maximized = false) ∧
        ((sw, sh) = (0, 0) →
          outcome.minimumSize = (width, height) ∧ outcome.window.maximized = false) := by
  have e1 : scaled 1366 s = qRound (fl (1366 * s)) := by
    rw [scaled_eq_qRound]
    norm_num
  have e2 : scaled 844 s = qRound (fl (844 * s)) := by
    rw [scaled_eq_qRound]
    norm_num
  have h := init_choice s hs sw sh
  rw [e1, e2] at h
  unfold heightFactor at h
  exact h

/-- Witness for C14: at scale factor 1.25 (120 DPI) the preferred size is
    1708 by 1055 and the tall height `qRound(1055 * 1.07)` is 1129; with 1920
    by 1080 available the window is maximised with that minimum size, with
    2560 by 1440 available the preferred size is used. -/
theorem minimum_size_fits_screen_witness :
    (0 : ℚ) ≤ 5 / 4 ∧
      (∃ outcome, init (5 / 4) (1920, 1080) = some outcome ∧
        outcome.minimumSize = (1920, 1080) ∧ outcome.window.maximized = true) ∧
      (∃ outcome, init (5 / 4) (2560, 1440) = some outcome ∧
        outcome.minimumSize = (1708, 1055) ∧ outcome.window.maximized = false) := by
  have hne1 : ((1920 : ℤ), (1080 : ℤ)) ≠ (0, 0) := by decide
  have hne2 : ((2560 : ℤ), (1440 : ℤ)) ≠ (0, 0) := by decide
  refine ⟨by norm_num, ?_, ?_⟩
  · have t := minimum_size_fits_screen (5 / 4) (by norm_num) 1920 1080
    obtain ⟨outcome, hout⟩ := t.1 (by norm_num)
    obtain ⟨width, height, hw, hh, _, hmax, _, _⟩ := t.2 outcome hout
    obtain rfl : height = 1055 :=
      (Option.some.inj (hh.symm.trans qRound_height_at_five_quarters))
    exact ⟨outcome, hout, hmax hne1 (Or.inr ⟨1129, qRound_tall_of_1055, by norm_num⟩)⟩
  · have t := minimum_size_fits_screen (5 / 4) (by norm_num) 2560 1440
    obtain ⟨outcome, hout⟩ := t.1 (by norm_num)
    obtain ⟨width, height, hw, hh, _, _, hpref, _⟩ := t.2 outcome hout
    obtain rfl : width = 1708 :=
      (Option.some.inj (hw.symm.trans qRound_width_at_five_quarters))
    obtain rfl : height = 1055 :=
      (Option.some.inj (hh.symm.trans qRound_height_at_five_quarters))
    refine ⟨outcome, hout, hpref hne2 ?_⟩
    rintro (h | ⟨tall, ht, h⟩)
    · omega
    · obtain rfl : tall = 1129 := (Option.some.inj (ht.symm.trans qRound_tall_of_1055))
      omega

/-- C16 (the code at the failing input): at 96 DPI on a screen with 1280 by 720
    available, `init` takes the branch that calls `showMaximized`, and the
    state it leaves has the window maximised while the maximise button still
    shows the maximize icon and the tool tip `Maximize`; the click handler, in
    contrast, always leaves icon and tool tip in line with the window state. -/
theorem maximise_button_stale_after_init :
    (∃ outcome, init (m_scaleFactor 96) (1280, 720) = some outcome ∧
      outcome.window.maximized = true ∧
      outcome.window.maximizeIcon = ":/resources/svg/maximize" ∧
      outcome.window.maximizeToolTip = "Maximize") ∧
    (∀ w : Window,
      ((onMaximizeClicked w).maximized = true ∧
          (onMaximizeClicked w).maximizeIcon = ":/resources/svg/restore-down" ∧
          (onMaximizeClicked w).maximizeToolTip = "Restore Down") ∨
        ((onMaximizeClicked w).maximized = false ∧
          (onMaximizeClicked w).maximizeIcon = ":/resources/svg/maximize" ∧
          (onMaximizeClicked w).maximizeToolTip = "Maximize")) := by
  have h0 : ¬ (((1280 : ℤ), (720 : ℤ)) = (0, 0)) := by decide
  have h1 : (1280 : ℤ) < 1366 := by decide
  refine ⟨⟨⟨(1280, 720), none, Window.created.showMaximized⟩, ?_, rfl, rfl, rfl⟩,
    onMaximizeClicked_consistent⟩
  rw [m_scaleFactor_ref, init_of_scaled 1 1280 720 1366 844
    (scaled_one 1366 (by norm_num) (by norm_num))
    (scaled_one 844 (by norm_num) (by norm_num)), if_neg h0, if_pos h1]

/-- C17 (the code at the failing input): with sample constants at 96 DPI the
    style sheet's `QMenu::separator` rule has the scaled height both as height
    and as background; the colour constant does not occur in it. Both
    occurrences of `%1` go to the first `arg`, and the second `arg` finds no
    place marker left; so for every scaled height and every colour the rule's
    background is the height. -/
theorem file_menu_separator_background_is_height :
    fileMenuStyleSheet sampleFileMenuConstants (m_scaleFactor 96) =
      some ("QMenu \x7b background-color: white; color: black; \x7d" ++
        "QMenu::item \x7b padding: 8px; \x7d" ++
        "QMenu::item:selected \x7b background-color: lightgrey; \x7d" ++
        "QMenu::separator \x7b height: 1px; background: 1; \x7d") ∧
    separatorRule 1 "#3C3D3F" = "QMenu::separator \x7b height: 1px; background: 1; \x7d" ∧
    (∀ (height : ℤ) (color : String),
      separatorRule height color =
        "QMenu::separator \x7b height: " ++ number height ++ "px; background: " ++
          number height ++ "; \x7d") := by
  have hsep : separatorRule 1 "#3C3D3F" =
      "QMenu::separator \x7b height: 1px; background: 1; \x7d" := by decide
  have h1 : arg2 "QMenu \x7b background-color: %1; color: %2; \x7d" "white" "black" =
      "QMenu \x7b background-color: white; color: black; \x7d" := by decide
  have h2 : arg "QMenu::item \x7b padding: %1px; \x7d" (number 8) =
      "QMenu::item \x7b padding: 8px; \x7d" := by decide
  refine ⟨?_, hsep, separatorRule_eq⟩
  rw [m_scaleFactor_ref, fileMenuStyleSheet_of_scaled sampleFileMenuConstants 1 1 8
    (scaled_one 1 (by norm_num) (by norm_num)) (scaled_one 8 (by norm_num) (by norm_num))]
  show some (arg2 "QMenu \x7b background-color: %1; color: %2; \x7d" "white" "black" ++
    arg "QMenu::item \x7b padding: %1px; \x7d" (number 8) ++
    "QMenu::item:selected \x7b background-color: lightgrey; \x7d" ++
    separatorRule 1 "#3C3D3F") = _
  rw [h1, h2, hsep]

end PhotoEditor
